import Mathlib

/-!
Verification of the reference-checking core of `osmium check-refs`
(source: `src/command_check_refs.cpp`).

The embedding below translates the C++ source into Lean:

* `bitsvec` is the wrapper around `std::vector<bool>` (source lines 114-140):
  `set` takes the absolute value of the id, resizes the vector to
  `pid + 1024*1024` entries whenever `size() <= pid`, and sets the bit;
  `get` takes the absolute value and returns the bit, `false` when the index
  is beyond the current size.
* `RefCheckHandler` carries the fields of the C++ class of the same name
  (lines 142-163).  `osmium::object_id_type` is `int64_t`, modelled as `Int`;
  the `uint32_t` casts applied to relation ids (lines 253 and 275) are
  modelled by `uint32_of`, reduction modulo `2^32`.  The `uint64_t` counters
  are modelled as `Nat` (they only ever grow by one per streamed item).
* The handler callbacks `node`, `way`, `relation` follow lines 217-282;
  `missing_relations_in_relations` follows lines 196-208 (`std::sort` on the
  observed ids followed by `std::set_difference` into the cached vector);
  `any_errors` follows lines 210-215 including the short-circuit evaluation
  of `||`; `CommandCheckRefs.run` follows lines 292-316 (console printing is
  elided; with `--check-relations` the printing calls
  `missing_relations_in_relations()` before `any_errors()`).
-/

/-- Growth chunk of `bitsvec::set`: the source resizes to `pid + 1024*1024`. -/
def chunkBits : Nat := 1024 * 1024

/-- Wrapper around `std::vector<bool>` (source class `bitsvec`). -/
structure bitsvec where
  m_bits : List Bool
deriving Repr, DecidableEq

/-- `bitsvec::set`: index by absolute value, grow to `pid + 1024*1024` when
`m_bits.size() <= pid`, then set the bit. -/
def bitsvec.set (b : bitsvec) (id : Int) : bitsvec :=
  let pid : Nat := id.natAbs
  let bits : List Bool :=
    if b.m_bits.length ≤ pid
    then b.m_bits ++ List.replicate (pid + chunkBits - b.m_bits.length) false
    else b.m_bits
  ⟨bits.set pid true⟩

/-- `bitsvec::get`: index by absolute value; `false` beyond the current size. -/
def bitsvec.get (b : bitsvec) (id : Int) : Bool :=
  let pid : Nat := id.natAbs
  decide (pid < b.m_bits.length) && b.m_bits.getD pid false

/-- The `uint32_t(...)` cast applied to relation ids: reduction mod `2^32`. -/
def uint32_of (id : Int) : Nat := (id % (2 ^ 32 : Int)).toNat

/-- Member types that the relation callback distinguishes
(`osmium::item_type`, restricted to the three cases of the `switch`;
every other value falls into the no-op `default` branch, which we omit
because members of OSM relations have exactly these three types). -/
inductive item_type where
  | node : item_type
  | way : item_type
  | relation : item_type
deriving Repr, DecidableEq

/-- A relation member: a typed reference. -/
structure Member where
  type : item_type
  ref : Int
deriving Repr, DecidableEq

/-- A streamed OSM object, as delivered by `osmium::apply` to the handler. -/
inductive Entity where
  | node (id : Int) : Entity
  | way (id : Int) (nodes : List Int) : Entity
  | relation (id : Int) (members : List Member) : Entity
deriving Repr, DecidableEq

/-- State of the C++ class `RefCheckHandler` (verbose-output handle elided). -/
structure RefCheckHandler where
  m_nodes : bitsvec := ⟨[]⟩
  m_ways : bitsvec := ⟨[]⟩
  m_relation_ids : List Nat := []
  m_member_relation_ids : Finset Nat := ∅
  m_missing_relation_ids : List Nat := []
  m_node_count : Nat := 0
  m_way_count : Nat := 0
  m_relation_count : Nat := 0
  m_missing_nodes_in_ways : Nat := 0
  m_missing_nodes_in_relations : Nat := 0
  m_missing_ways_in_relations : Nat := 0
  m_show_ids : Bool := false
  m_check_relations : Bool := false
  m_relations_done : Bool := false

/-- Constructor call `RefCheckHandler(vout, show_ids, check_relations)`. -/
def RefCheckHandler.init (show_ids check_relations : Bool) : RefCheckHandler :=
  { m_show_ids := show_ids, m_check_relations := check_relations }

/-- Handler callback for a node (source lines 217-224). -/
def RefCheckHandler.node (h : RefCheckHandler) (id : Int) : RefCheckHandler :=
  { h with
    m_node_count := h.m_node_count + 1
    m_nodes := h.m_nodes.set id }

/-- One iteration of the node-reference loop of the way callback
(source lines 236-243): count the reference when the node is absent. -/
def checkWayNode (acc : RefCheckHandler) (nref : Int) : RefCheckHandler :=
  if !acc.m_nodes.get nref then
    { acc with m_missing_nodes_in_ways := acc.m_missing_nodes_in_ways + 1 }
  else acc

/-- Handler callback for a way (source lines 226-244). -/
def RefCheckHandler.way (h : RefCheckHandler) (id : Int) (nodes : List Int) :
    RefCheckHandler :=
  let h1 := { h with m_way_count := h.m_way_count + 1 }
  let h2 := if h1.m_check_relations then { h1 with m_ways := h1.m_ways.set id } else h1
  nodes.foldl checkWayNode h2

/-- One iteration of the member loop of the relation callback
(source lines 254-280).  Note that in the `relation` case the source inserts
`uint32_t(relation.id())` — the id of the **containing** relation — into
`m_member_relation_ids`, not the id of the member (`member.ref()`). -/
def RefCheckHandler.processMember (rel_id : Int) (acc : RefCheckHandler) (m : Member) :
    RefCheckHandler :=
  match m.type with
  | item_type.node =>
      if !acc.m_nodes.get m.ref then
        { acc with
          m_missing_nodes_in_relations := acc.m_missing_nodes_in_relations + 1
          m_nodes := acc.m_nodes.set m.ref }
      else acc
  | item_type.way =>
      if !acc.m_ways.get m.ref then
        { acc with
          m_missing_ways_in_relations := acc.m_missing_ways_in_relations + 1
          m_ways := acc.m_ways.set m.ref }
      else acc
  | item_type.relation =>
      { acc with
        m_member_relation_ids := insert (uint32_of rel_id) acc.m_member_relation_ids }

/-- Handler callback for a relation (source lines 246-282). -/
def RefCheckHandler.relation (h : RefCheckHandler) (id : Int) (members : List Member) :
    RefCheckHandler :=
  let h1 := { h with m_relation_count := h.m_relation_count + 1 }
  if h1.m_check_relations then
    let h2 := { h1 with m_relation_ids := h1.m_relation_ids ++ [uint32_of id] }
    members.foldl (RefCheckHandler.processMember id) h2
  else h1

/-- `missing_relations_in_relations()` (source lines 196-208): on first call,
sort the observed relation ids and write the `std::set_difference` of the
referenced-ids set against them into `m_missing_relation_ids`
(`std::back_inserter` appends); afterwards return the cached size.
The function mutates the handler, so it returns the new state with the
size. -/
def RefCheckHandler.missing_relations_in_relations (h : RefCheckHandler) :
    RefCheckHandler × Nat :=
  if h.m_relations_done then
    (h, h.m_missing_relation_ids.length)
  else
    let sorted := h.m_relation_ids.mergeSort (fun a b => decide (a ≤ b))
    let diff := (h.m_member_relation_ids.sort (· ≤ ·)).filter
      (fun x => decide (¬ x ∈ sorted))
    let h1 := { h with
      m_relation_ids := sorted
      m_missing_relation_ids := h.m_missing_relation_ids ++ diff
      m_relations_done := true }
    (h1, h1.m_missing_relation_ids.length)

/-- `any_errors()` (source lines 210-215).  The C++ `||` short-circuits, so
`missing_relations_in_relations()` is only invoked when the first three
counters are all zero. -/
def RefCheckHandler.any_errors (h : RefCheckHandler) : RefCheckHandler × Bool :=
  if h.m_missing_nodes_in_ways > 0 ∨ h.m_missing_nodes_in_relations > 0 ∨
     h.m_missing_ways_in_relations > 0 then
    (h, true)
  else
    let p := h.missing_relations_in_relations
    (p.1, decide (p.2 > 0))

/-- Dispatch of `osmium::apply`: one handler callback per streamed object. -/
def RefCheckHandler.step (h : RefCheckHandler) : Entity → RefCheckHandler
  | Entity.node id => h.node id
  | Entity.way id nodes => h.way id nodes
  | Entity.relation id members => h.relation id members

/-- Run the handler over a whole entity stream, starting from a fresh state. -/
def processStream (show_ids check_relations : Bool) (es : List Entity) :
    RefCheckHandler :=
  es.foldl RefCheckHandler.step (RefCheckHandler.init show_ids check_relations)

/-- `CommandCheckRefs::run()` (source lines 292-316), reduced to its state
changes and return value: stream the file through the handler, print the
counters (with `--check-relations` the printing calls
`missing_relations_in_relations()`), and return `!handler.any_errors()`. -/
def CommandCheckRefs.run (show_ids check_relations : Bool) (es : List Entity) : Bool :=
  let handler := processStream show_ids check_relations es
  let handler :=
    if check_relations then (handler.missing_relations_in_relations).1 else handler
  !(handler.any_errors).2

/-- The handler state at the end of `CommandCheckRefs::run()` just before
the final `any_errors()` call: with `--check-relations` the printing code
has already called `missing_relations_in_relations()`. -/
def finalHandler (show_ids check_relations : Bool) (es : List Entity) :
    RefCheckHandler :=
  let handler := processStream show_ids check_relations es
  if check_relations then (handler.missing_relations_in_relations).1 else handler

/-- Iterated `bitsvec::set`: mark a whole list of ids, in order. -/
def bitsvec.setAll (b : bitsvec) (l : List Int) : bitsvec :=
  l.foldl bitsvec.set b

/-- Remove from a relation every node member whose referenced id has the
absolute value of `X`; other entities are unchanged.  Used to compare a
stream against the same stream without the references to node `X`. -/
def eraseNodeMembers (X : Int) : Entity → Entity
  | Entity.relation id members =>
      Entity.relation id (members.filter
        (fun m => !(m.type == item_type.node && m.ref.natAbs == X.natAbs)))
  | e => e

/-- Remove from a relation every way member whose referenced id has the
absolute value of `X`; other entities are unchanged. -/
def eraseWayMembers (X : Int) : Entity → Entity
  | Entity.relation id members =>
      Entity.relation id (members.filter
        (fun m => !(m.type == item_type.way && m.ref.natAbs == X.natAbs)))
  | e => e

/-- The concrete test stream of the relation-ledger scenario: node 1;
relation 100 with members (node,1), (node,2), (relation,200); relation 300
with no members. -/
def scenarioC1 : List Entity :=
  [Entity.node 1,
   Entity.relation 100
     [⟨item_type.node, 1⟩, ⟨item_type.node, 2⟩, ⟨item_type.relation, 200⟩],
   Entity.relation 300 []]

/-- The two handler states agree on every field that does not depend on the
node id `X`: everything except the node presence bits of `X` itself, the
`m_missing_nodes_in_relations` counter, and the `m_missing_nodes_in_ways`
counter (ways read the node presence set, so that counter may diverge once
`X` has been marked in one run but not the other). -/
def AgreeOffNodes (X : Int) (h h' : RefCheckHandler) : Prop :=
  h'.m_ways = h.m_ways ∧
  h'.m_relation_ids = h.m_relation_ids ∧
  h'.m_member_relation_ids = h.m_member_relation_ids ∧
  h'.m_missing_relation_ids = h.m_missing_relation_ids ∧
  h'.m_node_count = h.m_node_count ∧
  h'.m_way_count = h.m_way_count ∧
  h'.m_relation_count = h.m_relation_count ∧
  h'.m_missing_ways_in_relations = h.m_missing_ways_in_relations ∧
  h'.m_show_ids = h.m_show_ids ∧
  h'.m_check_relations = h.m_check_relations ∧
  h'.m_relations_done = h.m_relations_done ∧
  ∀ y : Int, y.natAbs ≠ X.natAbs → h'.m_nodes.get y = h.m_nodes.get y

/-- Simulation invariant between the run on a stream and the run on the
stream with the node-member references to `X` erased: either `X` has not
been encountered yet and the states are identical, or `X` has been counted
missing exactly once (and marked present) in the unmodified run. -/
def InvNode (X : Int) (h h' : RefCheckHandler) : Prop :=
  (h.m_nodes.get X = false ∧ h = h') ∨
  (h.m_nodes.get X = true ∧ h'.m_nodes.get X = false ∧
   h.m_missing_nodes_in_relations = h'.m_missing_nodes_in_relations + 1 ∧
   AgreeOffNodes X h h')

/-- The two handler states agree on every field that does not depend on the
way id `X`: everything except the way presence bits of `X` and the
`m_missing_ways_in_relations` counter. -/
def AgreeOffWays (X : Int) (h h' : RefCheckHandler) : Prop :=
  h'.m_nodes = h.m_nodes ∧
  h'.m_relation_ids = h.m_relation_ids ∧
  h'.m_member_relation_ids = h.m_member_relation_ids ∧
  h'.m_missing_relation_ids = h.m_missing_relation_ids ∧
  h'.m_node_count = h.m_node_count ∧
  h'.m_way_count = h.m_way_count ∧
  h'.m_relation_count = h.m_relation_count ∧
  h'.m_missing_nodes_in_ways = h.m_missing_nodes_in_ways ∧
  h'.m_missing_nodes_in_relations = h.m_missing_nodes_in_relations ∧
  h'.m_show_ids = h.m_show_ids ∧
  h'.m_check_relations = h.m_check_relations ∧
  h'.m_relations_done = h.m_relations_done ∧
  ∀ y : Int, y.natAbs ≠ X.natAbs → h'.m_ways.get y = h.m_ways.get y

/-- Simulation invariant between the run on a stream and the run on the
stream with the way-member references to `X` erased. -/
def InvWay (X : Int) (h h' : RefCheckHandler) : Prop :=
  (h.m_ways.get X = false ∧ h = h') ∨
  (h.m_ways.get X = true ∧ h'.m_ways.get X = false ∧
   h.m_missing_ways_in_relations = h'.m_missing_ways_in_relations + 1 ∧
   AgreeOffWays X h h')

/-! ### Lemmas about `bitsvec` -/

/-- The empty bit vector contains nothing. -/
theorem bitsvec.get_empty (id : Int) : bitsvec.get ⟨[]⟩ id = false := by
  simp [bitsvec.get]

/-- The bounds test inside `get` is redundant with `getD`'s default. -/
theorem bitsvec.get_eq_getD (b : bitsvec) (id : Int) :
    b.get id = b.m_bits.getD id.natAbs false := by
  unfold bitsvec.get
  rcases Nat.lt_or_ge id.natAbs b.m_bits.length with h | h
  · simp [h]
  · have h1 : b.m_bits[id.natAbs]? = none := by
      rw [List.getElem?_eq_none_iff]; omega
    simp [Nat.not_lt.mpr h, List.getD_eq_getElem?_getD, h1]

/-- Padding a list with `false` entries does not change any `getD _ false`. -/
theorem getD_false_append_replicate (l : List Bool) (k q : Nat) :
    (l ++ List.replicate k false).getD q false = l.getD q false := by
  rcases Nat.lt_or_ge q l.length with h | h
  · rw [List.getD_eq_getElem?_getD, List.getElem?_append_left h,
      ← List.getD_eq_getElem?_getD]
  · rw [List.getD_eq_getElem?_getD, List.getD_eq_getElem?_getD]
    have h1 : l[q]? = none := by rw [List.getElem?_eq_none_iff]; omega
    rw [h1, List.getElem?_append_right h, List.getElem?_replicate]
    by_cases h2 : q - l.length < k <;> simp [h2]

/-- Size of the backing vector after `set`: grown to `pid + 1024*1024` when
the index did not fit, untouched otherwise. -/
theorem bitsvec.length_set (b : bitsvec) (id : Int) :
    (b.set id).m_bits.length =
      if b.m_bits.length ≤ id.natAbs then id.natAbs + chunkBits
      else b.m_bits.length := by
  unfold bitsvec.set
  by_cases h : b.m_bits.length ≤ id.natAbs
  · simp [h, List.length_set, chunkBits]; omega
  · simp [h, List.length_set]

/-- After `set id` the backing vector can index `|id|`. -/
theorem bitsvec.lt_length_set (b : bitsvec) (id : Int) :
    id.natAbs < (b.set id).m_bits.length := by
  rw [bitsvec.length_set]
  by_cases h : b.m_bits.length ≤ id.natAbs <;> simp [h, chunkBits] <;> omega

/-- Full characterization of `get` after `set`: the queried id reads `true`
exactly when it has the same absolute value as the id just set, or was
already present. -/
theorem bitsvec.get_set (b : bitsvec) (x y : Int) :
    (b.set x).get y = (decide (x.natAbs = y.natAbs) || b.get y) := by
  rw [bitsvec.get_eq_getD, bitsvec.get_eq_getD]
  have hlt := bitsvec.lt_length_set b x
  by_cases hxy : x.natAbs = y.natAbs
  · rw [← hxy]
    unfold bitsvec.set at hlt ⊢
    simp only at hlt ⊢
    rw [List.getD_eq_getElem?_getD,
      List.getElem?_set_self (by simpa [List.length_set] using hlt)]
    simp
  · simp only [decide_eq_false hxy, Bool.false_or]
    unfold bitsvec.set
    simp only
    rw [List.getD_eq_getElem?_getD, List.getElem?_set_ne (by omega),
      ← List.getD_eq_getElem?_getD]
    by_cases hres : b.m_bits.length ≤ x.natAbs
    · rw [if_pos hres, getD_false_append_replicate]
    · rw [if_neg hres]

/-- `get` only depends on the absolute value of the id. -/
theorem bitsvec.get_congr (b : bitsvec) {x y : Int} (h : x.natAbs = y.natAbs) :
    b.get x = b.get y := by
  simp [bitsvec.get, h]

/-- Characterization of `get` after marking a whole list of ids. -/
theorem bitsvec.get_setAll (l : List Int) (b : bitsvec) (y : Int) :
    (b.setAll l).get y =
      (l.any (fun x => decide (x.natAbs = y.natAbs)) || b.get y) := by
  induction l generalizing b with
  | nil => simp [bitsvec.setAll]
  | cons x xs ih =>
    simp only [bitsvec.setAll, List.foldl_cons, List.any_cons] at *
    rw [ih, bitsvec.get_set]
    cases hx : decide (x.natAbs = y.natAbs) <;> simp [hx]

/-! ### Lemmas about the handler callbacks -/

/-- The node-reference loop of the way callback only increments
`m_missing_nodes_in_ways`, once per missing reference (duplicates
included); it never touches a presence set. -/
theorem way_loop_eq (nodes : List Int) (g : RefCheckHandler) :
    nodes.foldl checkWayNode g =
    { g with m_missing_nodes_in_ways :=
        g.m_missing_nodes_in_ways + nodes.countP (fun r => !g.m_nodes.get r) } := by
  induction nodes generalizing g with
  | nil => simp
  | cons r rs ih =>
    rw [List.foldl_cons, List.countP_cons]
    by_cases hr : g.m_nodes.get r
    · rw [show checkWayNode g r = g by simp [checkWayNode, hr], ih]
      simp [hr]
    · rw [show checkWayNode g r =
          { g with m_missing_nodes_in_ways := g.m_missing_nodes_in_ways + 1 } by
            simp [checkWayNode, hr], ih]
      simp only [Bool.not_eq_true] at hr
      simp [hr]
      omega

/-- Full characterization of the way callback. -/
theorem RefCheckHandler.way_eq (h : RefCheckHandler) (id : Int) (nodes : List Int) :
    h.way id nodes =
      { h with
        m_way_count := h.m_way_count + 1
        m_ways := if h.m_check_relations then h.m_ways.set id else h.m_ways
        m_missing_nodes_in_ways :=
          h.m_missing_nodes_in_ways + nodes.countP (fun r => !h.m_nodes.get r) } := by
  unfold RefCheckHandler.way
  by_cases hc : h.m_check_relations <;> simp [hc, way_loop_eq]

/-- With relation checking disabled, the relation callback only counts. -/
theorem RefCheckHandler.relation_eq_of_not_check (h : RefCheckHandler) (id : Int)
    (members : List Member) (hc : h.m_check_relations = false) :
    h.relation id members = { h with m_relation_count := h.m_relation_count + 1 } := by
  unfold RefCheckHandler.relation
  simp [hc]

/-- Member loop, node member, node absent: count and mark. -/
theorem processMember_node_missing (rid : Int) (acc : RefCheckHandler) (m : Member)
    (ht : m.type = item_type.node) (hm : acc.m_nodes.get m.ref = false) :
    RefCheckHandler.processMember rid acc m =
      { acc with
        m_missing_nodes_in_relations := acc.m_missing_nodes_in_relations + 1
        m_nodes := acc.m_nodes.set m.ref } := by
  rcases m with ⟨t, ref⟩
  cases ht
  simp [RefCheckHandler.processMember, hm]

/-- Member loop, node member, node present: no change. -/
theorem processMember_node_present (rid : Int) (acc : RefCheckHandler) (m : Member)
    (ht : m.type = item_type.node) (hm : acc.m_nodes.get m.ref = true) :
    RefCheckHandler.processMember rid acc m = acc := by
  rcases m with ⟨t, ref⟩
  cases ht
  simp [RefCheckHandler.processMember, hm]

/-- Member loop, way member, way absent: count and mark. -/
theorem processMember_way_missing (rid : Int) (acc : RefCheckHandler) (m : Member)
    (ht : m.type = item_type.way) (hm : acc.m_ways.get m.ref = false) :
    RefCheckHandler.processMember rid acc m =
      { acc with
        m_missing_ways_in_relations := acc.m_missing_ways_in_relations + 1
        m_ways := acc.m_ways.set m.ref } := by
  rcases m with ⟨t, ref⟩
  cases ht
  simp [RefCheckHandler.processMember, hm]

/-- Member loop, way member, way present: no change. -/
theorem processMember_way_present (rid : Int) (acc : RefCheckHandler) (m : Member)
    (ht : m.type = item_type.way) (hm : acc.m_ways.get m.ref = true) :
    RefCheckHandler.processMember rid acc m = acc := by
  rcases m with ⟨t, ref⟩
  cases ht
  simp [RefCheckHandler.processMember, hm]

/-- Member loop, relation member: insert the (truncated) id of the
containing relation into the member-relation id set. -/
theorem processMember_rel (rid : Int) (acc : RefCheckHandler) (m : Member)
    (ht : m.type = item_type.relation) :
    RefCheckHandler.processMember rid acc m =
      { acc with
        m_member_relation_ids := insert (uint32_of rid) acc.m_member_relation_ids } := by
  rcases m with ⟨t, ref⟩
  cases ht
  simp [RefCheckHandler.processMember]

/-- The member loop never clears a node presence bit. -/
theorem processMember_nodes_mono (rid : Int) (acc : RefCheckHandler) (m : Member)
    (y : Int) (hy : acc.m_nodes.get y = true) :
    (RefCheckHandler.processMember rid acc m).m_nodes.get y = true := by
  rcases m with ⟨t, ref⟩
  cases t <;> simp [RefCheckHandler.processMember]
  · split
    · simp [bitsvec.get_set, hy]
    · exact hy
  · split
    · exact hy
    · exact hy
  · exact hy

/-- The member loop never clears a way presence bit. -/
theorem processMember_ways_mono (rid : Int) (acc : RefCheckHandler) (m : Member)
    (y : Int) (hy : acc.m_ways.get y = true) :
    (RefCheckHandler.processMember rid acc m).m_ways.get y = true := by
  rcases m with ⟨t, ref⟩
  cases t <;> simp [RefCheckHandler.processMember]
  · split
    · exact hy
    · exact hy
  · split
    · simp [bitsvec.get_set, hy]
    · exact hy
  · exact hy

/-- Folding the member loop never clears a node presence bit. -/
theorem members_foldl_nodes_mono (rid : Int) (members : List Member)
    (g : RefCheckHandler) (y : Int) (hy : g.m_nodes.get y = true) :
    ((members.foldl (RefCheckHandler.processMember rid) g).m_nodes.get y = true) := by
  induction members generalizing g with
  | nil => exact hy
  | cons m ms ih =>
    rw [List.foldl_cons]
    exact ih _ (processMember_nodes_mono rid g m y hy)

/-- Folding the member loop never clears a way presence bit. -/
theorem members_foldl_ways_mono (rid : Int) (members : List Member)
    (g : RefCheckHandler) (y : Int) (hy : g.m_ways.get y = true) :
    ((members.foldl (RefCheckHandler.processMember rid) g).m_ways.get y = true) := by
  induction members generalizing g with
  | nil => exact hy
  | cons m ms ih =>
    rw [List.foldl_cons]
    exact ih _ (processMember_ways_mono rid g m y hy)

/-- After the member loop runs over a list containing a node member, that
node is present (it is either found or marked). -/
theorem members_foldl_marks_node (rid : Int) (members : List Member)
    (g : RefCheckHandler) (m : Member) (hm : m ∈ members)
    (ht : m.type = item_type.node) :
    ((members.foldl (RefCheckHandler.processMember rid) g).m_nodes.get m.ref = true) := by
  induction members generalizing g with
  | nil => cases hm
  | cons m0 ms ih =>
    rw [List.foldl_cons]
    rcases List.mem_cons.mp hm with hh | hh
    · subst hh
      by_cases hg : g.m_nodes.get m.ref = true
      · exact members_foldl_nodes_mono rid ms _ _
          (processMember_nodes_mono rid g m _ hg)
      · rw [processMember_node_missing rid g m ht (by simpa using hg)]
        exact members_foldl_nodes_mono rid ms _ _
          (by simp [bitsvec.get_set])
    · exact ih _ hh

/-- After the member loop runs over a list containing a way member, that
way is present. -/
theorem members_foldl_marks_way (rid : Int) (members : List Member)
    (g : RefCheckHandler) (m : Member) (hm : m ∈ members)
    (ht : m.type = item_type.way) :
    ((members.foldl (RefCheckHandler.processMember rid) g).m_ways.get m.ref = true) := by
  induction members generalizing g with
  | nil => cases hm
  | cons m0 ms ih =>
    rw [List.foldl_cons]
    rcases List.mem_cons.mp hm with hh | hh
    · subst hh
      by_cases hg : g.m_ways.get m.ref = true
      · exact members_foldl_ways_mono rid ms _ _
          (processMember_ways_mono rid g m _ hg)
      · rw [processMember_way_missing rid g m ht (by simpa using hg)]
        exact members_foldl_ways_mono rid ms _ _
          (by simp [bitsvec.get_set])
    · exact ih _ hh

/-! ### Simulation lemmas: erasing the references to one node id -/

/-- Processing a node member that refers to `X` (by absolute value) from a
pair of states satisfying the invariant preserves the invariant when the
erased run skips the member: the first occurrence counts and marks, later
occurrences are no-ops. -/
theorem InvNode_pm_erased (X rid : Int) (h h' : RefCheckHandler) (m : Member)
    (ht : m.type = item_type.node) (habs : m.ref.natAbs = X.natAbs)
    (hinv : InvNode X h h') :
    InvNode X (RefCheckHandler.processMember rid h m) h' := by
  rcases hinv with ⟨hgf, rfl⟩ | ⟨hgt, hg'f, hcnt, hagree⟩
  · have hmref : h.m_nodes.get m.ref = false := by
      rw [bitsvec.get_congr h.m_nodes habs]; exact hgf
    rw [processMember_node_missing rid h m ht hmref]
    right
    refine ⟨?_, hgf, by simp, ?_⟩
    · show (h.m_nodes.set m.ref).get X = true
      rw [bitsvec.get_set]
      simp [habs]
    · refine ⟨rfl, rfl, rfl, rfl, rfl, rfl, rfl, rfl, rfl, rfl, rfl, ?_⟩
      intro y hy
      show h.m_nodes.get y = (h.m_nodes.set m.ref).get y
      rw [bitsvec.get_set]
      have : m.ref.natAbs ≠ y.natAbs := by rw [habs]; exact fun hc => hy hc.symm
      simp [this]
  · have hmref : h.m_nodes.get m.ref = true := by
      rw [bitsvec.get_congr h.m_nodes habs]; exact hgt
    rw [processMember_node_present rid h m ht hmref]
    exact Or.inr ⟨hgt, hg'f, hcnt, hagree⟩

/-- Processing any member that does not refer to node `X` preserves the
invariant when both runs process it. -/
theorem InvNode_pm_kept (X rid : Int) (h h' : RefCheckHandler) (m : Member)
    (hm : ¬(m.type = item_type.node ∧ m.ref.natAbs = X.natAbs))
    (hinv : InvNode X h h') :
    InvNode X (RefCheckHandler.processMember rid h m)
      (RefCheckHandler.processMember rid h' m) := by
  rcases hinv with ⟨hgf, rfl⟩ | ⟨hgt, hg'f, hcnt, hagree⟩
  · -- identical states: both sides take the same step
    left
    refine ⟨?_, rfl⟩
    rcases m with ⟨t, ref⟩
    cases t
    · have hne : ref.natAbs ≠ X.natAbs := fun hc => hm ⟨rfl, hc⟩
      by_cases hg : h.m_nodes.get ref = true
      · rw [processMember_node_present rid h _ rfl hg]; exact hgf
      · rw [processMember_node_missing rid h _ rfl (by simpa using hg)]
        show (h.m_nodes.set ref).get X = false
        rw [bitsvec.get_set]
        simp [hgf, hne]
    · by_cases hg : h.m_ways.get ref = true
      · rw [processMember_way_present rid h _ rfl hg]; exact hgf
      · rw [processMember_way_missing rid h _ rfl (by simpa using hg)]; exact hgf
    · rw [processMember_rel rid h _ rfl]; exact hgf
  · obtain ⟨ha_ways, ha_relids, ha_memids, ha_missrel, ha_nc, ha_wc, ha_rc,
      ha_mwr, ha_si, ha_cr, ha_rd, ha_nodes⟩ := hagree
    rcases m with ⟨t, ref⟩
    cases t
    · -- node member not referring to X
      have hne : ref.natAbs ≠ X.natAbs := fun hc => hm ⟨rfl, hc⟩
      have heq : h'.m_nodes.get ref = h.m_nodes.get ref := ha_nodes ref hne
      by_cases hg : h.m_nodes.get ref = true
      · rw [processMember_node_present rid h _ rfl hg,
          processMember_node_present rid h' _ rfl (by rw [heq]; exact hg)]
        exact Or.inr ⟨hgt, hg'f, hcnt,
          ⟨ha_ways, ha_relids, ha_memids, ha_missrel, ha_nc, ha_wc, ha_rc,
            ha_mwr, ha_si, ha_cr, ha_rd, ha_nodes⟩⟩
      · have hgf2 : h.m_nodes.get ref = false := by simpa using hg
        rw [processMember_node_missing rid h _ rfl hgf2,
          processMember_node_missing rid h' _ rfl (by rw [heq]; exact hgf2)]
        right
        refine ⟨?_, ?_, by simp; omega, ?_⟩
        · show (h.m_nodes.set ref).get X = true
          rw [bitsvec.get_set]; simp [hgt]
        · show (h'.m_nodes.set ref).get X = false
          rw [bitsvec.get_set]; simp [hg'f, hne]
        · refine ⟨by simpa using ha_ways, by simpa using ha_relids,
            by simpa using ha_memids, by simpa using ha_missrel,
            by simpa using ha_nc, by simpa using ha_wc, by simpa using ha_rc,
            by simpa using ha_mwr, by simpa using ha_si, by simpa using ha_cr,
            by simpa using ha_rd, ?_⟩
          intro y hy
          show (h'.m_nodes.set ref).get y = (h.m_nodes.set ref).get y
          rw [bitsvec.get_set, bitsvec.get_set, ha_nodes y hy]
    · -- way member
      by_cases hg : h.m_ways.get ref = true
      · rw [processMember_way_present rid h _ rfl hg,
          processMember_way_present rid h' _ rfl (by rw [ha_ways]; exact hg)]
        exact Or.inr ⟨hgt, hg'f, hcnt,
          ⟨ha_ways, ha_relids, ha_memids, ha_missrel, ha_nc, ha_wc, ha_rc,
            ha_mwr, ha_si, ha_cr, ha_rd, ha_nodes⟩⟩
      · have hgf2 : h.m_ways.get ref = false := by simpa using hg
        rw [processMember_way_missing rid h _ rfl hgf2,
          processMember_way_missing rid h' _ rfl (by rw [ha_ways]; exact hgf2)]
        right
        refine ⟨hgt, hg'f, by simpa using hcnt, ?_⟩
        refine ⟨by simp [ha_ways], by simpa using ha_relids,
          by simpa using ha_memids, by simpa using ha_missrel,
          by simpa using ha_nc, by simpa using ha_wc, by simpa using ha_rc,
          by simp; omega, by simpa using ha_si, by simpa using ha_cr,
          by simpa using ha_rd, by simpa using ha_nodes⟩
    · -- relation member
      rw [processMember_rel rid h _ rfl, processMember_rel rid h' _ rfl]
      right
      refine ⟨hgt, hg'f, by simpa using hcnt, ?_⟩
      refine ⟨by simpa using ha_ways, by simpa using ha_relids,
        by simp [ha_memids], by simpa using ha_missrel,
        by simpa using ha_nc, by simpa using ha_wc, by simpa using ha_rc,
        by simpa using ha_mwr, by simpa using ha_si, by simpa using ha_cr,
        by simpa using ha_rd, by simpa using ha_nodes⟩

/-- With relation checking enabled, the relation callback counts, records
the truncated relation id, and runs the member loop. -/
theorem RefCheckHandler.relation_eq_of_check (h : RefCheckHandler) (id : Int)
    (members : List Member) (hc : h.m_check_relations = true) :
    h.relation id members =
      members.foldl (RefCheckHandler.processMember id)
        { h with
          m_relation_count := h.m_relation_count + 1
          m_relation_ids := h.m_relation_ids ++ [uint32_of id] } := by
  unfold RefCheckHandler.relation
  simp [hc]

/-- The member loop preserves the configuration flags and the fields it
does not explicitly touch. -/
theorem processMember_check (rid : Int) (acc : RefCheckHandler) (m : Member) :
    (RefCheckHandler.processMember rid acc m).m_check_relations =
      acc.m_check_relations := by
  rcases m with ⟨t, ref⟩
  cases t <;> simp [RefCheckHandler.processMember] <;> split <;> rfl

/-- Folding the member loop preserves the relation-checking flag. -/
theorem members_foldl_check (rid : Int) (members : List Member)
    (g : RefCheckHandler) :
    ((members.foldl (RefCheckHandler.processMember rid) g).m_check_relations =
      g.m_check_relations) := by
  induction members generalizing g with
  | nil => rfl
  | cons m ms ih => rw [List.foldl_cons, ih, processMember_check]

/-- Every handler callback preserves the relation-checking flag. -/
theorem step_check (h : RefCheckHandler) (e : Entity) :
    (h.step e).m_check_relations = h.m_check_relations := by
  cases e with
  | node id => rfl
  | way id nodes =>
    show (h.way id nodes).m_check_relations = h.m_check_relations
    rw [RefCheckHandler.way_eq]
  | relation id members =>
    by_cases hc : h.m_check_relations = true
    · rw [RefCheckHandler.step, RefCheckHandler.relation_eq_of_check h id members hc,
        members_foldl_check, hc]
    · rw [RefCheckHandler.step,
        RefCheckHandler.relation_eq_of_not_check h id members (by simpa using hc)]

/-- Streaming preserves the relation-checking flag. -/
theorem stream_check (es : List Entity) (h : RefCheckHandler) :
    ((es.foldl RefCheckHandler.step h).m_check_relations = h.m_check_relations) := by
  induction es generalizing h with
  | nil => rfl
  | cons e es ih => rw [List.foldl_cons, ih, step_check]

/-- No handler callback ever clears a node presence bit. -/
theorem step_nodes_mono (h : RefCheckHandler) (e : Entity) (y : Int)
    (hy : h.m_nodes.get y = true) : (h.step e).m_nodes.get y = true := by
  cases e with
  | node id =>
    show (h.m_nodes.set id).get y = true
    rw [bitsvec.get_set]
    simp [hy]
  | way id nodes =>
    show (h.way id nodes).m_nodes.get y = true
    rw [RefCheckHandler.way_eq]
    exact hy
  | relation id members =>
    by_cases hc : h.m_check_relations = true
    · rw [RefCheckHandler.step, RefCheckHandler.relation_eq_of_check h id members hc]
      exact members_foldl_nodes_mono id members _ y hy
    · rw [RefCheckHandler.step,
        RefCheckHandler.relation_eq_of_not_check h id members (by simpa using hc)]
      exact hy

/-- Streaming never clears a node presence bit. -/
theorem stream_nodes_mono (es : List Entity) (h : RefCheckHandler) (y : Int)
    (hy : h.m_nodes.get y = true) :
    ((es.foldl RefCheckHandler.step h).m_nodes.get y = true) := by
  induction es generalizing h with
  | nil => exact hy
  | cons e es ih => rw [List.foldl_cons]; exact ih _ (step_nodes_mono h e y hy)

/-- No handler callback ever clears a way presence bit. -/
theorem step_ways_mono (h : RefCheckHandler) (e : Entity) (y : Int)
    (hy : h.m_ways.get y = true) : (h.step e).m_ways.get y = true := by
  cases e with
  | node id => exact hy
  | way id nodes =>
    show (h.way id nodes).m_ways.get y = true
    rw [RefCheckHandler.way_eq]
    show (if h.m_check_relations then h.m_ways.set id else h.m_ways).get y = true
    split
    · rw [bitsvec.get_set]; simp [hy]
    · exact hy
  | relation id members =>
    by_cases hc : h.m_check_relations = true
    · rw [RefCheckHandler.step, RefCheckHandler.relation_eq_of_check h id members hc]
      exact members_foldl_ways_mono id members _ y hy
    · rw [RefCheckHandler.step,
        RefCheckHandler.relation_eq_of_not_check h id members (by simpa using hc)]
      exact hy

/-- Streaming never clears a way presence bit. -/
theorem stream_ways_mono (es : List Entity) (h : RefCheckHandler) (y : Int)
    (hy : h.m_ways.get y = true) :
    ((es.foldl RefCheckHandler.step h).m_ways.get y = true) := by
  induction es generalizing h with
  | nil => exact hy
  | cons e es ih => rw [List.foldl_cons]; exact ih _ (step_ways_mono h e y hy)

/-- The member-loop invariant: folding the loop over a member list on one
side and over the list with the references to node `X` erased on the other
side preserves the simulation invariant. -/
theorem InvNode_members (X rid : Int) (members : List Member)
    (h h' : RefCheckHandler) (hinv : InvNode X h h') :
    InvNode X (members.foldl (RefCheckHandler.processMember rid) h)
      ((members.filter
        (fun m => !(m.type == item_type.node && m.ref.natAbs == X.natAbs))).foldl
        (RefCheckHandler.processMember rid) h') := by
  induction members generalizing h h' with
  | nil => simpa using hinv
  | cons m ms ih =>
    rw [List.foldl_cons]
    cases hb : (m.type == item_type.node && m.ref.natAbs == X.natAbs) with
    | true =>
      have hx : m.type = item_type.node ∧ m.ref.natAbs = X.natAbs := by
        simpa using hb
      rw [List.filter_cons_of_neg (by simp [hb])]
      exact ih _ _ (InvNode_pm_erased X rid h h' m hx.1 hx.2 hinv)
    | false =>
      have hx : ¬(m.type = item_type.node ∧ m.ref.natAbs = X.natAbs) := by
        intro hc
        simp [hc.1, hc.2] at hb
      rw [List.filter_cons_of_pos (by simp [hb]), List.foldl_cons]
      exact ih _ _ (InvNode_pm_kept X rid h h' m hx hinv)

/-- One handler step preserves the node-erasure simulation invariant,
provided the streamed entity is not the node `X` itself. -/
theorem InvNode_step (X : Int) (h h' : RefCheckHandler) (e : Entity)
    (he : ∀ id, e = Entity.node id → id.natAbs ≠ X.natAbs)
    (hinv : InvNode X h h') :
    InvNode X (h.step e) (h'.step (eraseNodeMembers X e)) := by
  cases e with
  | node id =>
    have hne : id.natAbs ≠ X.natAbs := he id rfl
    show InvNode X
      { h with m_node_count := h.m_node_count + 1, m_nodes := h.m_nodes.set id }
      { h' with m_node_count := h'.m_node_count + 1, m_nodes := h'.m_nodes.set id }
    rcases hinv with ⟨hgf, rfl⟩ | ⟨hgt, hg'f, hcnt, ⟨ha_ways, ha_relids, ha_memids,
      ha_missrel, ha_nc, ha_wc, ha_rc, ha_mwr, ha_si, ha_cr, ha_rd, ha_nodes⟩⟩
    · left
      refine ⟨?_, rfl⟩
      show (h.m_nodes.set id).get X = false
      rw [bitsvec.get_set]
      simp [hgf, hne]
    · right
      refine ⟨?_, ?_, by simpa using hcnt, ?_⟩
      · show (h.m_nodes.set id).get X = true
        rw [bitsvec.get_set]; simp [hgt]
      · show (h'.m_nodes.set id).get X = false
        rw [bitsvec.get_set]; simp [hg'f, hne]
      · refine ⟨by simpa using ha_ways, by simpa using ha_relids,
          by simpa using ha_memids, by simpa using ha_missrel,
          by simp [ha_nc], by simpa using ha_wc, by simpa using ha_rc,
          by simpa using ha_mwr, by simpa using ha_si, by simpa using ha_cr,
          by simpa using ha_rd, ?_⟩
        intro y hy
        show (h'.m_nodes.set id).get y = (h.m_nodes.set id).get y
        rw [bitsvec.get_set, bitsvec.get_set, ha_nodes y hy]
  | way id nodes =>
    rcases hinv with ⟨hgf, rfl⟩ | ⟨hgt, hg'f, hcnt, ⟨ha_ways, ha_relids, ha_memids,
      ha_missrel, ha_nc, ha_wc, ha_rc, ha_mwr, ha_si, ha_cr, ha_rd, ha_nodes⟩⟩
    · left
      refine ⟨?_, rfl⟩
      show (h.way id nodes).m_nodes.get X = false
      rw [RefCheckHandler.way_eq]
      exact hgf
    · show InvNode X (h.way id nodes) (h'.way id nodes)
      rw [RefCheckHandler.way_eq, RefCheckHandler.way_eq]
      right
      refine ⟨hgt, hg'f, by simpa using hcnt, ?_⟩
      refine ⟨?_, by simpa using ha_relids,
        by simpa using ha_memids, by simpa using ha_missrel,
        by simpa using ha_nc, by simp [ha_wc], by simpa using ha_rc,
        by simpa using ha_mwr, by simpa using ha_si, by simpa using ha_cr,
        by simpa using ha_rd, by simpa using ha_nodes⟩
      show (if h'.m_check_relations then h'.m_ways.set id else h'.m_ways) =
        (if h.m_check_relations then h.m_ways.set id else h.m_ways)
      rw [ha_cr, ha_ways]
  | relation id members =>
    show InvNode X (h.relation id members)
      (h'.step (eraseNodeMembers X (Entity.relation id members)))
    have hcr' : h'.m_check_relations = h.m_check_relations := by
      rcases hinv with ⟨_, rfl⟩ | ⟨_, _, _, ⟨_, _, _, _, _, _, _, _, _, ha_cr, _, _⟩⟩
      · rfl
      · exact ha_cr
    by_cases hc : h.m_check_relations = true
    · rw [show eraseNodeMembers X (Entity.relation id members) =
          Entity.relation id (members.filter
            (fun m => !(m.type == item_type.node && m.ref.natAbs == X.natAbs)))
          from rfl]
      show InvNode X (h.relation id members)
        (h'.relation id (members.filter
          (fun m => !(m.type == item_type.node && m.ref.natAbs == X.natAbs))))
      rw [RefCheckHandler.relation_eq_of_check h id members hc,
        RefCheckHandler.relation_eq_of_check h' id _ (by rw [hcr', hc])]
      apply InvNode_members
      rcases hinv with ⟨hgf, rfl⟩ | ⟨hgt, hg'f, hcnt, ⟨ha_ways, ha_relids, ha_memids,
        ha_missrel, ha_nc, ha_wc, ha_rc, ha_mwr, ha_si, ha_cr, ha_rd, ha_nodes⟩⟩
      · exact Or.inl ⟨hgf, rfl⟩
      · right
        refine ⟨hgt, hg'f, by simpa using hcnt, ?_⟩
        refine ⟨by simpa using ha_ways, by simp [ha_relids],
          by simpa using ha_memids, by simpa using ha_missrel,
          by simpa using ha_nc, by simpa using ha_wc, by simp [ha_rc],
          by simpa using ha_mwr, by simpa using ha_si, by simpa using ha_cr,
          by simpa using ha_rd, by simpa using ha_nodes⟩
    · have hcf : h.m_check_relations = false := by simpa using hc
      have hcf' : h'.m_check_relations = false := by rw [hcr', hcf]
      have her : h'.step (eraseNodeMembers X (Entity.relation id members)) =
          { h' with m_relation_count := h'.m_relation_count + 1 } := by
        cases hmem : eraseNodeMembers X (Entity.relation id members) with
        | node i => simp [eraseNodeMembers] at hmem
        | way i ns => simp [eraseNodeMembers] at hmem
        | relation i ms =>
          obtain ⟨hi, _⟩ : id = i ∧ members.filter
              (fun m => !(m.type == item_type.node && m.ref.natAbs == X.natAbs)) = ms := by
            simpa [eraseNodeMembers] using hmem
          rw [RefCheckHandler.step, RefCheckHandler.relation_eq_of_not_check h' i ms hcf']
      rw [her, RefCheckHandler.relation_eq_of_not_check h id members hcf]
      rcases hinv with ⟨hgf, rfl⟩ | ⟨hgt, hg'f, hcnt, ⟨ha_ways, ha_relids, ha_memids,
        ha_missrel, ha_nc, ha_wc, ha_rc, ha_mwr, ha_si, ha_cr, ha_rd, ha_nodes⟩⟩
      · exact Or.inl ⟨hgf, rfl⟩
      · right
        refine ⟨hgt, hg'f, by simpa using hcnt, ?_⟩
        refine ⟨by simpa using ha_ways, by simpa using ha_relids,
          by simpa using ha_memids, by simpa using ha_missrel,
          by simpa using ha_nc, by simpa using ha_wc, by simp [ha_rc],
          by simpa using ha_mwr, by simpa using ha_si, by simpa using ha_cr,
          by simpa using ha_rd, by simpa using ha_nodes⟩

/-- The stream-level simulation: running the handler over a stream that
never delivers node `X` and over the same stream with the node-member
references to `X` erased preserves the invariant. -/
theorem InvNode_stream (X : Int) (es : List Entity) (h h' : RefCheckHandler)
    (hes : ∀ id, Entity.node id ∈ es → id.natAbs ≠ X.natAbs)
    (hinv : InvNode X h h') :
    InvNode X (es.foldl RefCheckHandler.step h)
      (((es.map (eraseNodeMembers X)).foldl RefCheckHandler.step h')) := by
  induction es generalizing h h' with
  | nil => simpa using hinv
  | cons e es ih =>
    rw [List.map_cons, List.foldl_cons, List.foldl_cons]
    apply ih
    · exact fun i hi => hes i (List.mem_cons_of_mem e hi)
    · exact InvNode_step X h h' e
        (fun i hei => hes i (hei ▸ List.mem_cons_self e es)) hinv

/-- After streaming a list that contains a relation with a node member
referring to `X`, node `X` is present (found or marked missing-then-marked). -/
theorem stream_marks_node_member (X : Int) (es : List Entity) (h : RefCheckHandler)
    (hc : h.m_check_relations = true)
    (hex : ∃ e ∈ es, ∃ rid members, e = Entity.relation rid members ∧
      ∃ m ∈ members, m.type = item_type.node ∧ m.ref.natAbs = X.natAbs) :
    ((es.foldl RefCheckHandler.step h).m_nodes.get X = true) := by
  induction es generalizing h with
  | nil =>
    rcases hex with ⟨e, he, _⟩
    cases he
  | cons e es ih =>
    rw [List.foldl_cons]
    rcases hex with ⟨e0, he0, rid, members, hrel, m, hm, ht, habs⟩
    rcases List.mem_cons.mp he0 with rfl | htail
    · subst hrel
      have h1 : (h.step (Entity.relation rid members)).m_nodes.get m.ref = true := by
        rw [RefCheckHandler.step, RefCheckHandler.relation_eq_of_check h rid members hc]
        exact members_foldl_marks_node rid members _ m hm ht
      have h2 : (h.step (Entity.relation rid members)).m_nodes.get X = true := by
        rw [← bitsvec.get_congr _ habs]
        exact h1
      exact stream_nodes_mono es _ X h2
    · apply ih
      · rw [step_check, hc]
      · exact ⟨e0, htail, rid, members, hrel, m, hm, ht, habs⟩

/-- After streaming a list that contains a relation with a way member
referring to `X`, way `X` is present. -/
theorem stream_marks_way_member (X : Int) (es : List Entity) (h : RefCheckHandler)
    (hc : h.m_check_relations = true)
    (hex : ∃ e ∈ es, ∃ rid members, e = Entity.relation rid members ∧
      ∃ m ∈ members, m.type = item_type.way ∧ m.ref.natAbs = X.natAbs) :
    ((es.foldl RefCheckHandler.step h).m_ways.get X = true) := by
  induction es generalizing h with
  | nil =>
    rcases hex with ⟨e, he, _⟩
    cases he
  | cons e es ih =>
    rw [List.foldl_cons]
    rcases hex with ⟨e0, he0, rid, members, hrel, m, hm, ht, habs⟩
    rcases List.mem_cons.mp he0 with rfl | htail
    · subst hrel
      have h1 : (h.step (Entity.relation rid members)).m_ways.get m.ref = true := by
        rw [RefCheckHandler.step, RefCheckHandler.relation_eq_of_check h rid members hc]
        exact members_foldl_marks_way rid members _ m hm ht
      have h2 : (h.step (Entity.relation rid members)).m_ways.get X = true := by
        rw [← bitsvec.get_congr _ habs]
        exact h1
      exact stream_ways_mono es _ X h2
    · apply ih
      · rw [step_check, hc]
      · exact ⟨e0, htail, rid, members, hrel, m, hm, ht, habs⟩

/-! ### Simulation lemmas: erasing the references to one way id -/

/-- Way-member counterpart of `InvNode_pm_erased`. -/
theorem InvWay_pm_erased (X rid : Int) (h h' : RefCheckHandler) (m : Member)
    (ht : m.type = item_type.way) (habs : m.ref.natAbs = X.natAbs)
    (hinv : InvWay X h h') :
    InvWay X (RefCheckHandler.processMember rid h m) h' := by
  rcases hinv with ⟨hgf, rfl⟩ | ⟨hgt, hg'f, hcnt, hagree⟩
  · have hmref : h.m_ways.get m.ref = false := by
      rw [bitsvec.get_congr h.m_ways habs]; exact hgf
    rw [processMember_way_missing rid h m ht hmref]
    right
    refine ⟨?_, hgf, by simp, ?_⟩
    · show (h.m_ways.set m.ref).get X = true
      rw [bitsvec.get_set]
      simp [habs]
    · refine ⟨rfl, rfl, rfl, rfl, rfl, rfl, rfl, rfl, rfl, rfl, rfl, rfl, ?_⟩
      intro y hy
      show h.m_ways.get y = (h.m_ways.set m.ref).get y
      rw [bitsvec.get_set]
      have : m.ref.natAbs ≠ y.natAbs := by rw [habs]; exact fun hc => hy hc.symm
      simp [this]
  · have hmref : h.m_ways.get m.ref = true := by
      rw [bitsvec.get_congr h.m_ways habs]; exact hgt
    rw [processMember_way_present rid h m ht hmref]
    exact Or.inr ⟨hgt, hg'f, hcnt, hagree⟩

/-- Way-member counterpart of `InvNode_pm_kept`. -/
theorem InvWay_pm_kept (X rid : Int) (h h' : RefCheckHandler) (m : Member)
    (hm : ¬(m.type = item_type.way ∧ m.ref.natAbs = X.natAbs))
    (hinv : InvWay X h h') :
    InvWay X (RefCheckHandler.processMember rid h m)
      (RefCheckHandler.processMember rid h' m) := by
  rcases hinv with ⟨hgf, rfl⟩ | ⟨hgt, hg'f, hcnt, hagree⟩
  · left
    refine ⟨?_, rfl⟩
    rcases m with ⟨t, ref⟩
    cases t
    · by_cases hg : h.m_nodes.get ref = true
      · rw [processMember_node_present rid h _ rfl hg]; exact hgf
      · rw [processMember_node_missing rid h _ rfl (by simpa using hg)]; exact hgf
    · have hne : ref.natAbs ≠ X.natAbs := fun hc => hm ⟨rfl, hc⟩
      by_cases hg : h.m_ways.get ref = true
      · rw [processMember_way_present rid h _ rfl hg]; exact hgf
      · rw [processMember_way_missing rid h _ rfl (by simpa using hg)]
        show (h.m_ways.set ref).get X = false
        rw [bitsvec.get_set]
        simp [hgf, hne]
    · rw [processMember_rel rid h _ rfl]; exact hgf
  · obtain ⟨ha_nodes, ha_relids, ha_memids, ha_missrel, ha_nc, ha_wc, ha_rc,
      ha_mnw, ha_mnr, ha_si, ha_cr, ha_rd, ha_ways⟩ := hagree
    rcases m with ⟨t, ref⟩
    cases t
    · -- node member: both runs share the identical node presence set
      by_cases hg : h.m_nodes.get ref = true
      · rw [processMember_node_present rid h _ rfl hg,
          processMember_node_present rid h' _ rfl (by rw [ha_nodes]; exact hg)]
        exact Or.inr ⟨hgt, hg'f, hcnt,
          ⟨ha_nodes, ha_relids, ha_memids, ha_missrel, ha_nc, ha_wc, ha_rc,
            ha_mnw, ha_mnr, ha_si, ha_cr, ha_rd, ha_ways⟩⟩
      · have hgf2 : h.m_nodes.get ref = false := by simpa using hg
        rw [processMember_node_missing rid h _ rfl hgf2,
          processMember_node_missing rid h' _ rfl (by rw [ha_nodes]; exact hgf2)]
        right
        refine ⟨hgt, hg'f, by simpa using hcnt, ?_⟩
        refine ⟨by simp [ha_nodes], by simpa using ha_relids,
          by simpa using ha_memids, by simpa using ha_missrel,
          by simpa using ha_nc, by simpa using ha_wc, by simpa using ha_rc,
          by simpa using ha_mnw, by simp; omega, by simpa using ha_si,
          by simpa using ha_cr, by simpa using ha_rd, by simpa using ha_ways⟩
    · -- way member not referring to X
      have hne : ref.natAbs ≠ X.natAbs := fun hc => hm ⟨rfl, hc⟩
      have heq : h'.m_ways.get ref = h.m_ways.get ref := ha_ways ref hne
      by_cases hg : h.m_ways.get ref = true
      · rw [processMember_way_present rid h _ rfl hg,
          processMember_way_present rid h' _ rfl (by rw [heq]; exact hg)]
        exact Or.inr ⟨hgt, hg'f, hcnt,
          ⟨ha_nodes, ha_relids, ha_memids, ha_missrel, ha_nc, ha_wc, ha_rc,
            ha_mnw, ha_mnr, ha_si, ha_cr, ha_rd, ha_ways⟩⟩
      · have hgf2 : h.m_ways.get ref = false := by simpa using hg
        rw [processMember_way_missing rid h _ rfl hgf2,
          processMember_way_missing rid h' _ rfl (by rw [heq]; exact hgf2)]
        right
        refine ⟨?_, ?_, by simp; omega, ?_⟩
        · show (h.m_ways.set ref).get X = true
          rw [bitsvec.get_set]; simp [hgt]
        · show (h'.m_ways.set ref).get X = false
          rw [bitsvec.get_set]; simp [hg'f, hne]
        · refine ⟨by simpa using ha_nodes, by simpa using ha_relids,
            by simpa using ha_memids, by simpa using ha_missrel,
            by simpa using ha_nc, by simpa using ha_wc, by simpa using ha_rc,
            by simpa using ha_mnw, by simpa using ha_mnr, by simpa using ha_si,
            by simpa using ha_cr, by simpa using ha_rd, ?_⟩
          intro y hy
          show (h'.m_ways.set ref).get y = (h.m_ways.set ref).get y
          rw [bitsvec.get_set, bitsvec.get_set, ha_ways y hy]
    · rw [processMember_rel rid h _ rfl, processMember_rel rid h' _ rfl]
      right
      refine ⟨hgt, hg'f, by simpa using hcnt, ?_⟩
      refine ⟨by simpa using ha_nodes, by simpa using ha_relids,
        by simp [ha_memids], by simpa using ha_missrel,
        by simpa using ha_nc, by simpa using ha_wc, by simpa using ha_rc,
        by simpa using ha_mnw, by simpa using ha_mnr, by simpa using ha_si,
        by simpa using ha_cr, by simpa using ha_rd, by simpa using ha_ways⟩

/-- Way-member counterpart of `InvNode_members`. -/
theorem InvWay_members (X rid : Int) (members : List Member)
    (h h' : RefCheckHandler) (hinv : InvWay X h h') :
    InvWay X (members.foldl (RefCheckHandler.processMember rid) h)
      ((members.filter
        (fun m => !(m.type == item_type.way && m.ref.natAbs == X.natAbs))).foldl
        (RefCheckHandler.processMember rid) h') := by
  induction members generalizing h h' with
  | nil => simpa using hinv
  | cons m ms ih =>
    rw [List.foldl_cons]
    cases hb : (m.type == item_type.way && m.ref.natAbs == X.natAbs) with
    | true =>
      have hx : m.type = item_type.way ∧ m.ref.natAbs = X.natAbs := by
        simpa using hb
      rw [List.filter_cons_of_neg (by simp [hb])]
      exact ih _ _ (InvWay_pm_erased X rid h h' m hx.1 hx.2 hinv)
    | false =>
      have hx : ¬(m.type = item_type.way ∧ m.ref.natAbs = X.natAbs) := by
        intro hc
        simp [hc.1, hc.2] at hb
      rw [List.filter_cons_of_pos (by simp [hb]), List.foldl_cons]
      exact ih _ _ (InvWay_pm_kept X rid h h' m hx hinv)

/-- Way-member counterpart of `InvNode_step`: one handler step preserves
the way-erasure invariant, provided the streamed entity is not way `X`. -/
theorem InvWay_step (X : Int) (h h' : RefCheckHandler) (e : Entity)
    (he : ∀ id ns, e = Entity.way id ns → id.natAbs ≠ X.natAbs)
    (hinv : InvWay X h h') :
    InvWay X (h.step e) (h'.step (eraseWayMembers X e)) := by
  cases e with
  | node id =>
    show InvWay X
      { h with m_node_count := h.m_node_count + 1, m_nodes := h.m_nodes.set id }
      { h' with m_node_count := h'.m_node_count + 1, m_nodes := h'.m_nodes.set id }
    rcases hinv with ⟨hgf, rfl⟩ | ⟨hgt, hg'f, hcnt, ⟨ha_nodes, ha_relids, ha_memids,
      ha_missrel, ha_nc, ha_wc, ha_rc, ha_mnw, ha_mnr, ha_si, ha_cr, ha_rd, ha_ways⟩⟩
    · exact Or.inl ⟨hgf, rfl⟩
    · right
      refine ⟨hgt, hg'f, by simpa using hcnt, ?_⟩
      refine ⟨by simp [ha_nodes], by simpa using ha_relids,
        by simpa using ha_memids, by simpa using ha_missrel,
        by simp [ha_nc], by simpa using ha_wc, by simpa using ha_rc,
        by simpa using ha_mnw, by simpa using ha_mnr, by simpa using ha_si,
        by simpa using ha_cr, by simpa using ha_rd, by simpa using ha_ways⟩
  | way id nodes =>
    have hne : id.natAbs ≠ X.natAbs := he id nodes rfl
    show InvWay X (h.way id nodes) (h'.way id nodes)
    rw [RefCheckHandler.way_eq, RefCheckHandler.way_eq]
    rcases hinv with ⟨hgf, rfl⟩ | ⟨hgt, hg'f, hcnt, ⟨ha_nodes, ha_relids, ha_memids,
      ha_missrel, ha_nc, ha_wc, ha_rc, ha_mnw, ha_mnr, ha_si, ha_cr, ha_rd, ha_ways⟩⟩
    · left
      refine ⟨?_, rfl⟩
      show (if h.m_check_relations then h.m_ways.set id else h.m_ways).get X = false
      split
      · rw [bitsvec.get_set]; simp [hgf, hne]
      · exact hgf
    · right
      refine ⟨?_, ?_, by simpa using hcnt, ?_⟩
      · show (if h.m_check_relations then h.m_ways.set id else h.m_ways).get X = true
        split
        · rw [bitsvec.get_set]; simp [hgt]
        · exact hgt
      · show (if h'.m_check_relations then h'.m_ways.set id else h'.m_ways).get X = false
        split
        · rw [bitsvec.get_set]; simp [hg'f, hne]
        · exact hg'f
      · refine ⟨by simpa using ha_nodes, by simpa using ha_relids,
          by simpa using ha_memids, by simpa using ha_missrel,
          by simpa using ha_nc, by simp [ha_wc], by simpa using ha_rc,
          by simp [ha_nodes, ha_mnw], by simpa using ha_mnr, by simpa using ha_si,
          by simpa using ha_cr, by simpa using ha_rd, ?_⟩
        intro y hy
        show (if h'.m_check_relations then h'.m_ways.set id else h'.m_ways).get y =
          (if h.m_check_relations then h.m_ways.set id else h.m_ways).get y
        rw [ha_cr]
        split
        · rw [bitsvec.get_set, bitsvec.get_set, ha_ways y hy]
        · exact ha_ways y hy
  | relation id members =>
    show InvWay X (h.relation id members)
      (h'.step (eraseWayMembers X (Entity.relation id members)))
    have hcr' : h'.m_check_relations = h.m_check_relations := by
      rcases hinv with ⟨_, rfl⟩ | ⟨_, _, _, ⟨_, _, _, _, _, _, _, _, _, _, ha_cr, _, _⟩⟩
      · rfl
      · exact ha_cr
    by_cases hc : h.m_check_relations = true
    · show InvWay X (h.relation id members)
        (h'.relation id (members.filter
          (fun m => !(m.type == item_type.way && m.ref.natAbs == X.natAbs))))
      rw [RefCheckHandler.relation_eq_of_check h id members hc,
        RefCheckHandler.relation_eq_of_check h' id _ (by rw [hcr', hc])]
      apply InvWay_members
      rcases hinv with ⟨hgf, rfl⟩ | ⟨hgt, hg'f, hcnt, ⟨ha_nodes, ha_relids, ha_memids,
        ha_missrel, ha_nc, ha_wc, ha_rc, ha_mnw, ha_mnr, ha_si, ha_cr, ha_rd, ha_ways⟩⟩
      · exact Or.inl ⟨hgf, rfl⟩
      · right
        refine ⟨hgt, hg'f, by simpa using hcnt, ?_⟩
        refine ⟨by simpa using ha_nodes, by simp [ha_relids],
          by simpa using ha_memids, by simpa using ha_missrel,
          by simpa using ha_nc, by simpa using ha_wc, by simp [ha_rc],
          by simpa using ha_mnw, by simpa using ha_mnr, by simpa using ha_si,
          by simpa using ha_cr, by simpa using ha_rd, by simpa using ha_ways⟩
    · have hcf : h.m_check_relations = false := by simpa using hc
      have hcf' : h'.m_check_relations = false := by rw [hcr', hcf]
      have her : h'.step (eraseWayMembers X (Entity.relation id members)) =
          { h' with m_relation_count := h'.m_relation_count + 1 } :=
        RefCheckHandler.relation_eq_of_not_check h' id _ hcf'
      rw [her, RefCheckHandler.relation_eq_of_not_check h id members hcf]
      rcases hinv with ⟨hgf, rfl⟩ | ⟨hgt, hg'f, hcnt, ⟨ha_nodes, ha_relids, ha_memids,
        ha_missrel, ha_nc, ha_wc, ha_rc, ha_mnw, ha_mnr, ha_si, ha_cr, ha_rd, ha_ways⟩⟩
      · exact Or.inl ⟨hgf, rfl⟩
      · right
        refine ⟨hgt, hg'f, by simpa using hcnt, ?_⟩
        refine ⟨by simpa using ha_nodes, by simpa using ha_relids,
          by simpa using ha_memids, by simpa using ha_missrel,
          by simpa using ha_nc, by simpa using ha_wc, by simp [ha_rc],
          by simpa using ha_mnw, by simpa using ha_mnr, by simpa using ha_si,
          by simpa using ha_cr, by simpa using ha_rd, by simpa using ha_ways⟩

/-- Way-member counterpart of `InvNode_stream`. -/
theorem InvWay_stream (X : Int) (es : List Entity) (h h' : RefCheckHandler)
    (hes : ∀ id ns, Entity.way id ns ∈ es → id.natAbs ≠ X.natAbs)
    (hinv : InvWay X h h') :
    InvWay X (es.foldl RefCheckHandler.step h)
      (((es.map (eraseWayMembers X)).foldl RefCheckHandler.step h')) := by
  induction es generalizing h h' with
  | nil => simpa using hinv
  | cons e es ih =>
    rw [List.map_cons, List.foldl_cons, List.foldl_cons]
    apply ih
    · exact fun i ns hi => hes i ns (List.mem_cons_of_mem e hi)
    · exact InvWay_step X h h' e
        (fun i ns hei => hes i ns (hei ▸ List.mem_cons_self e es)) hinv

/-! ### Claim theorems -/

/-- C2: with relation checking enabled, a node id `X` that is never
streamed as a node entity but is referenced as a node member by some
relation is counted missing exactly once in total across all relations
(the whole run counts exactly one more missing node-in-relation than the
same run with all node-member references to `X` erased), and afterwards
`X` is marked present in the node presence set.  The symmetric property
holds for way members against the way presence set. -/
theorem relation_missing_member_counted_once :
    (∀ (es : List Entity) (X : Int) (sids : Bool),
      (∀ id, Entity.node id ∈ es → id.natAbs ≠ X.natAbs) →
      (∃ e ∈ es, ∃ rid members, e = Entity.relation rid members ∧
        ∃ m ∈ members, m.type = item_type.node ∧ m.ref.natAbs = X.natAbs) →
      (processStream sids true es).m_missing_nodes_in_relations =
        (processStream sids true
          (es.map (eraseNodeMembers X))).m_missing_nodes_in_relations + 1 ∧
      ((processStream sids true es).m_nodes.get X = true)) ∧
    (∀ (es : List Entity) (X : Int) (sids : Bool),
      (∀ id ns, Entity.way id ns ∈ es → id.natAbs ≠ X.natAbs) →
      (∃ e ∈ es, ∃ rid members, e = Entity.relation rid members ∧
        ∃ m ∈ members, m.type = item_type.way ∧ m.ref.natAbs = X.natAbs) →
      (processStream sids true es).m_missing_ways_in_relations =
        (processStream sids true
          (es.map (eraseWayMembers X))).m_missing_ways_in_relations + 1 ∧
      ((processStream sids true es).m_ways.get X = true)) := by
  constructor
  · intro es X sids hnode hex
    have hmark : ((es.foldl RefCheckHandler.step
        (RefCheckHandler.init sids true)).m_nodes.get X = true) :=
      stream_marks_node_member X es _ rfl hex
    have hinv := InvNode_stream X es (RefCheckHandler.init sids true)
      (RefCheckHandler.init sids true) hnode (Or.inl ⟨bitsvec.get_empty X, rfl⟩)
    rcases hinv with ⟨hgf, _⟩ | ⟨_, _, hcnt, _⟩
    · rw [hmark] at hgf; cases hgf
    · exact ⟨hcnt, hmark⟩
  · intro es X sids hway hex
    have hmark : ((es.foldl RefCheckHandler.step
        (RefCheckHandler.init sids true)).m_ways.get X = true) :=
      stream_marks_way_member X es _ rfl hex
    have hinv := InvWay_stream X es (RefCheckHandler.init sids true)
      (RefCheckHandler.init sids true) hway (Or.inl ⟨bitsvec.get_empty X, rfl⟩)
    rcases hinv with ⟨hgf, _⟩ | ⟨_, _, hcnt, _⟩
    · rw [hmark] at hgf; cases hgf
    · exact ⟨hcnt, hmark⟩

/-- Witness for C2 at a concrete stream: two relations referencing the
same never-streamed node id 5 (resp. way id 5). -/
theorem relation_missing_member_counted_once_witness :
    ((processStream false true
        [Entity.relation 7 [⟨item_type.node, 5⟩],
         Entity.relation 8 [⟨item_type.node, 5⟩]]).m_missing_nodes_in_relations =
      (processStream false true
        (([Entity.relation 7 [⟨item_type.node, 5⟩],
           Entity.relation 8 [⟨item_type.node, 5⟩]]).map
            (eraseNodeMembers 5))).m_missing_nodes_in_relations + 1 ∧
     ((processStream false true
        [Entity.relation 7 [⟨item_type.node, 5⟩],
         Entity.relation 8 [⟨item_type.node, 5⟩]]).m_nodes.get 5 = true)) ∧
    ((processStream false true
        [Entity.relation 7 [⟨item_type.way, 5⟩],
         Entity.relation 8 [⟨item_type.way, 5⟩]]).m_missing_ways_in_relations =
      (processStream false true
        (([Entity.relation 7 [⟨item_type.way, 5⟩],
           Entity.relation 8 [⟨item_type.way, 5⟩]]).map
            (eraseWayMembers 5))).m_missing_ways_in_relations + 1 ∧
     ((processStream false true
        [Entity.relation 7 [⟨item_type.way, 5⟩],
         Entity.relation 8 [⟨item_type.way, 5⟩]]).m_ways.get 5 = true)) := by
  constructor
  · exact relation_missing_member_counted_once.1 _ 5 false
      (by intro id hid; simp at hid)
      ⟨Entity.relation 7 [⟨item_type.node, 5⟩], by simp, 7, [⟨item_type.node, 5⟩],
        rfl, ⟨item_type.node, 5⟩, by simp, rfl, rfl⟩
  · exact relation_missing_member_counted_once.2 _ 5 false
      (by intro id ns hid; simp at hid)
      ⟨Entity.relation 7 [⟨item_type.way, 5⟩], by simp, 7, [⟨item_type.way, 5⟩],
        rfl, ⟨item_type.way, 5⟩, by simp, rfl, rfl⟩

/-- C3: the way callback counts one missing node-in-way per occurrence of
an absent referenced node id — duplicates included, because the count is
the number of list positions whose id is absent — and it never marks any
node id as present (the node presence set is returned unchanged). -/
theorem way_missing_nodes_per_occurrence (h : RefCheckHandler) (id : Int)
    (nodes : List Int) :
    (h.way id nodes).m_missing_nodes_in_ways =
      h.m_missing_nodes_in_ways + nodes.countP (fun r => !(h.m_nodes.get r)) ∧
    (h.way id nodes).m_nodes = h.m_nodes := by
  rw [RefCheckHandler.way_eq]
  exact ⟨rfl, rfl⟩

/-- C7: the presence set identifies an id with its negation — both `set`
and `get` index by `std::abs` of the id. -/
theorem presence_set_abs_identity (b : bitsvec) (x : Int) :
    (b.set x).get (-x) = true ∧ (b.set (-x)).get x = true := by
  constructor
  · rw [bitsvec.get_set]; simp
  · rw [bitsvec.get_set]; simp

/-- C9: with relation checking disabled, the relation callback only
increments the relation count (every other field is unchanged), and the
way callback does not mark the way's own id in the way presence set while
still counting its missing node references. -/
theorem disabled_relation_checking_frame (h : RefCheckHandler) (id : Int)
    (members : List Member) (wid : Int) (wnodes : List Int)
    (hc : h.m_check_relations = false) :
    h.relation id members = { h with m_relation_count := h.m_relation_count + 1 } ∧
    (h.way wid wnodes).m_ways = h.m_ways ∧
    (h.way wid wnodes).m_missing_nodes_in_ways =
      h.m_missing_nodes_in_ways + wnodes.countP (fun r => !(h.m_nodes.get r)) := by
  refine ⟨RefCheckHandler.relation_eq_of_not_check h id members hc, ?_, ?_⟩
  · rw [RefCheckHandler.way_eq]
    simp [hc]
  · rw [RefCheckHandler.way_eq]

/-- Witness for C9 at a concrete state: a fresh handler with relation
checking disabled, one relation and one way with an unresolvable node. -/
theorem disabled_relation_checking_frame_witness :
    (RefCheckHandler.init false false).relation 9 [⟨item_type.node, 4⟩] =
      { RefCheckHandler.init false false with
        m_relation_count := (RefCheckHandler.init false false).m_relation_count + 1 } ∧
    ((RefCheckHandler.init false false).way 3 [4]).m_ways =
      (RefCheckHandler.init false false).m_ways ∧
    ((RefCheckHandler.init false false).way 3 [4]).m_missing_nodes_in_ways =
      (RefCheckHandler.init false false).m_missing_nodes_in_ways +
        List.countP (fun r => !((RefCheckHandler.init false false).m_nodes.get r)) [4] :=
  disabled_relation_checking_frame (RefCheckHandler.init false false) 9
    [⟨item_type.node, 4⟩] 3 [4] rfl

/-! ### Ledger invariants: the relation-member set difference is dead code -/

/-- The member loop never touches the observed-relation-id vector, the
cached missing list, or the finalization flag. -/
theorem processMember_frame (rid : Int) (g : RefCheckHandler) (m : Member) :
    (RefCheckHandler.processMember rid g m).m_relation_ids = g.m_relation_ids ∧
    (RefCheckHandler.processMember rid g m).m_missing_relation_ids =
      g.m_missing_relation_ids ∧
    (RefCheckHandler.processMember rid g m).m_relations_done = g.m_relations_done := by
  rcases m with ⟨t, ref⟩
  cases t
  · by_cases hg : g.m_nodes.get ref = true
    · rw [processMember_node_present _ _ _ rfl hg]; exact ⟨rfl, rfl, rfl⟩
    · rw [processMember_node_missing _ _ _ rfl (by simpa using hg)]
      exact ⟨rfl, rfl, rfl⟩
  · by_cases hg : g.m_ways.get ref = true
    · rw [processMember_way_present _ _ _ rfl hg]; exact ⟨rfl, rfl, rfl⟩
    · rw [processMember_way_missing _ _ _ rfl (by simpa using hg)]
      exact ⟨rfl, rfl, rfl⟩
  · rw [processMember_rel _ _ _ rfl]; exact ⟨rfl, rfl, rfl⟩

/-- Everything the member loop ever inserts into the member-relation-id
set is the truncated id of the containing relation. -/
theorem processMember_memids (rid : Int) (g : RefCheckHandler) (m : Member) :
    ∀ x ∈ (RefCheckHandler.processMember rid g m).m_member_relation_ids,
      x = uint32_of rid ∨ x ∈ g.m_member_relation_ids := by
  rcases m with ⟨t, ref⟩
  cases t
  · by_cases hg : g.m_nodes.get ref = true
    · rw [processMember_node_present _ _ _ rfl hg]; exact fun x hx => Or.inr hx
    · rw [processMember_node_missing _ _ _ rfl (by simpa using hg)]
      exact fun x hx => Or.inr hx
  · by_cases hg : g.m_ways.get ref = true
    · rw [processMember_way_present _ _ _ rfl hg]; exact fun x hx => Or.inr hx
    · rw [processMember_way_missing _ _ _ rfl (by simpa using hg)]
      exact fun x hx => Or.inr hx
  · rw [processMember_rel _ _ _ rfl]
    intro x hx
    exact Finset.mem_insert.mp hx

/-- Frame of the member-loop fold for the three reconciliation fields. -/
theorem members_foldl_frame (rid : Int) (members : List Member)
    (g : RefCheckHandler) :
    ((members.foldl (RefCheckHandler.processMember rid) g).m_relation_ids =
      g.m_relation_ids) ∧
    ((members.foldl (RefCheckHandler.processMember rid) g).m_missing_relation_ids =
      g.m_missing_relation_ids) ∧
    ((members.foldl (RefCheckHandler.processMember rid) g).m_relations_done =
      g.m_relations_done) := by
  induction members generalizing g with
  | nil => exact ⟨rfl, rfl, rfl⟩
  | cons m ms ih =>
    rw [List.foldl_cons]
    obtain ⟨i1, i2, i3⟩ := ih (RefCheckHandler.processMember rid g m)
    obtain ⟨f1, f2, f3⟩ := processMember_frame rid g m
    exact ⟨i1.trans f1, i2.trans f2, i3.trans f3⟩

/-- During the member loop, every id in the member-relation-id set is
already recorded in the observed-relation-id vector, provided the
containing relation's id has been recorded — which the relation callback
does before entering the loop. -/
theorem members_foldl_ledger (rid : Int) (members : List Member)
    (g : RefCheckHandler)
    (hg : ∀ x ∈ g.m_member_relation_ids, x ∈ g.m_relation_ids)
    (hin : uint32_of rid ∈ g.m_relation_ids) :
    ∀ x ∈ (members.foldl (RefCheckHandler.processMember rid) g).m_member_relation_ids,
      x ∈ (members.foldl (RefCheckHandler.processMember rid) g).m_relation_ids := by
  induction members generalizing g with
  | nil => exact hg
  | cons m ms ih =>
    rw [List.foldl_cons]
    have hrel := (processMember_frame rid g m).1
    apply ih
    · intro x hx
      rw [hrel]
      rcases processMember_memids rid g m x hx with rfl | hmem
      · exact hin
      · exact hg x hmem
    · rw [hrel]; exact hin

/-- Every handler callback keeps the member-relation-id set inside the
observed-relation-id vector. -/
theorem step_ledger (h : RefCheckHandler) (e : Entity)
    (hsub : ∀ x ∈ h.m_member_relation_ids, x ∈ h.m_relation_ids) :
    ∀ x ∈ (h.step e).m_member_relation_ids, x ∈ (h.step e).m_relation_ids := by
  cases e with
  | node id => exact hsub
  | way id nodes =>
    show ∀ x ∈ (h.way id nodes).m_member_relation_ids,
      x ∈ (h.way id nodes).m_relation_ids
    rw [RefCheckHandler.way_eq]
    exact hsub
  | relation id members =>
    by_cases hc : h.m_check_relations = true
    · rw [RefCheckHandler.step, RefCheckHandler.relation_eq_of_check h id members hc]
      apply members_foldl_ledger
      · intro x hx
        exact List.mem_append.mpr (Or.inl (hsub x hx))
      · exact List.mem_append.mpr (Or.inr (List.mem_singleton.mpr rfl))
    · rw [RefCheckHandler.step,
        RefCheckHandler.relation_eq_of_not_check h id members (by simpa using hc)]
      exact hsub

/-- Stream version of `step_ledger`. -/
theorem stream_ledger (es : List Entity) (h : RefCheckHandler)
    (hsub : ∀ x ∈ h.m_member_relation_ids, x ∈ h.m_relation_ids) :
    ∀ x ∈ (es.foldl RefCheckHandler.step h).m_member_relation_ids,
      x ∈ (es.foldl RefCheckHandler.step h).m_relation_ids := by
  induction es generalizing h with
  | nil => exact hsub
  | cons e es ih =>
    rw [List.foldl_cons]
    exact ih _ (step_ledger h e hsub)

/-- No handler callback touches the cached missing list or the
finalization flag. -/
theorem step_frame (h : RefCheckHandler) (e : Entity) :
    (h.step e).m_missing_relation_ids = h.m_missing_relation_ids ∧
    (h.step e).m_relations_done = h.m_relations_done := by
  cases e with
  | node id => exact ⟨rfl, rfl⟩
  | way id nodes =>
    constructor
    · show (h.way id nodes).m_missing_relation_ids = h.m_missing_relation_ids
      rw [RefCheckHandler.way_eq]
    · show (h.way id nodes).m_relations_done = h.m_relations_done
      rw [RefCheckHandler.way_eq]
  | relation id members =>
    by_cases hc : h.m_check_relations = true
    · rw [RefCheckHandler.step, RefCheckHandler.relation_eq_of_check h id members hc]
      obtain ⟨_, f2, f3⟩ := members_foldl_frame id members _
      exact ⟨f2, f3⟩
    · rw [RefCheckHandler.step,
        RefCheckHandler.relation_eq_of_not_check h id members (by simpa using hc)]
      exact ⟨rfl, rfl⟩

/-- Stream version of `step_frame`. -/
theorem stream_frame (es : List Entity) (h : RefCheckHandler) :
    ((es.foldl RefCheckHandler.step h).m_missing_relation_ids =
      h.m_missing_relation_ids) ∧
    ((es.foldl RefCheckHandler.step h).m_relations_done = h.m_relations_done) := by
  induction es generalizing h with
  | nil => exact ⟨rfl, rfl⟩
  | cons e es ih =>
    rw [List.foldl_cons]
    obtain ⟨i1, i2⟩ := ih (h.step e)
    obtain ⟨f1, f2⟩ := step_frame h e
    exact ⟨i1.trans f1, i2.trans f2⟩

/-- When every referenced id is also observed, the first call of the
reconciliation produces an empty missing list. -/
theorem mrr_empty_of_subset (h : RefCheckHandler)
    (hdone : h.m_relations_done = false)
    (hmiss : h.m_missing_relation_ids = [])
    (hsub : ∀ x ∈ h.m_member_relation_ids, x ∈ h.m_relation_ids) :
    (h.missing_relations_in_relations).1.m_missing_relation_ids = [] := by
  unfold RefCheckHandler.missing_relations_in_relations
  rw [if_neg (by rw [hdone]; exact Bool.false_ne_true)]
  show h.m_missing_relation_ids ++ _ = []
  rw [hmiss, List.nil_append, List.filter_eq_nil_iff]
  intro x hx
  have hx1 : x ∈ h.m_member_relation_ids := Finset.mem_sort (α := ℕ) (· ≤ ·) |>.mp hx
  have hx2 : x ∈ h.m_relation_ids.mergeSort (fun a b => decide (a ≤ b)) :=
    (List.mergeSort_perm h.m_relation_ids _).mem_iff.mpr (hsub x hx1)
  simp [hx2]

/-- The `uint32_t` cast is the identity on small non-negative ids. -/
theorem uint32_of_small (id : Int) (h1 : 0 ≤ id) (h2 : id < 2 ^ 32) :
    uint32_of id = id.toNat := by
  unfold uint32_of
  rw [Int.emod_eq_of_lt h1 h2]

/-- C1 (code bug): in the scenario — node 1; relation 100 with members
(node,1), (node,2), (relation,200); relation 300 — the handler counts one
missing node-in-relation (id 2, marked present afterwards) and observes
relation ids [100, 300]; but the member-relation-id set is `{100}` rather
than the expected `{200}`, because line 275 of the source inserts
`uint32_t(relation.id())` (the id of the containing relation) instead of
`member.ref()`.  Consequently the reconciliation yields `[]` instead of
`[200]`; in fact the set difference is empty for every input stream,
because each inserted id was pushed onto the observed vector moments
earlier. -/
theorem checkrefs_relation_ledger_bug :
    (processStream false true scenarioC1).m_missing_nodes_in_relations = 1 ∧
    ((processStream false true scenarioC1).m_nodes.get 2 = true) ∧
    (processStream false true scenarioC1).m_relation_ids = [100, 300] ∧
    (processStream false true scenarioC1).m_member_relation_ids = {100} ∧
    ((processStream false true
      scenarioC1).missing_relations_in_relations).1.m_missing_relation_ids = [] ∧
    (∀ (sids cr : Bool) (es : List Entity),
      ((processStream sids cr
        es).missing_relations_in_relations).1.m_missing_relation_ids = []) := by
  have hgen : ∀ (sids cr : Bool) (es : List Entity),
      ((processStream sids cr
        es).missing_relations_in_relations).1.m_missing_relation_ids = [] := by
    intro sids cr es
    apply mrr_empty_of_subset
    · exact (stream_frame es _).2
    · exact (stream_frame es _).1
    · exact stream_ledger es _ (fun x hx => absurd hx (Finset.not_mem_empty x))
  have h100 : uint32_of 100 = 100 := by decide
  have h300 : uint32_of 300 = 300 := by decide
  have key : processStream false true scenarioC1 =
      { m_nodes := ((⟨[]⟩ : bitsvec).set 1).set 2
        m_ways := ⟨[]⟩
        m_relation_ids := [100, 300]
        m_member_relation_ids := {100}
        m_missing_relation_ids := []
        m_node_count := 1
        m_way_count := 0
        m_relation_count := 2
        m_missing_nodes_in_ways := 0
        m_missing_nodes_in_relations := 1
        m_missing_ways_in_relations := 0
        m_show_ids := false
        m_check_relations := true
        m_relations_done := false } := by
    unfold processStream scenarioC1
    rw [List.foldl_cons, List.foldl_cons, List.foldl_cons, List.foldl_nil]
    simp only [RefCheckHandler.step]
    rw [show (RefCheckHandler.init false true).node 1 =
        { m_show_ids := false, m_check_relations := true,
          m_node_count := 1, m_nodes := (⟨[]⟩ : bitsvec).set 1 } from rfl]
    rw [RefCheckHandler.relation_eq_of_check _ 100 _ rfl]
    rw [List.foldl_cons]
    rw [processMember_node_present 100 _ _ rfl
      (by show ((⟨[]⟩ : bitsvec).set 1).get 1 = true
          rw [bitsvec.get_set]; simp)]
    rw [List.foldl_cons]
    rw [processMember_node_missing 100 _ _ rfl
      (by show ((⟨[]⟩ : bitsvec).set 1).get 2 = false
          rw [bitsvec.get_set, bitsvec.get_empty]; decide)]
    rw [List.foldl_cons]
    rw [processMember_rel 100 _ _ rfl]
    rw [List.foldl_nil]
    rw [RefCheckHandler.relation_eq_of_check _ 300 _ rfl]
    rw [List.foldl_nil]
    simp [h100, h300]
  refine ⟨?_, ?_, ?_, ?_, hgen false true scenarioC1, hgen⟩
  · rw [key]
  · rw [key]
    show (((⟨[]⟩ : bitsvec).set 1).set 2).get 2 = true
    rw [bitsvec.get_set]
    simp
  · rw [key]
  · rw [key]

/-- After any call of `missing_relations_in_relations()` the handler is
finalized. -/
theorem mrr_done (h : RefCheckHandler) :
    (h.missing_relations_in_relations).1.m_relations_done = true := by
  unfold RefCheckHandler.missing_relations_in_relations
  by_cases hd : h.m_relations_done = true
  · rw [if_pos hd]; exact hd
  · rw [if_neg hd]

/-- `run()` returns the negation of `any_errors()` on the final handler
state. -/
theorem run_eq (sids cr : Bool) (es : List Entity) :
    CommandCheckRefs.run sids cr es = !((finalHandler sids cr es).any_errors).2 := rfl

/-- C4: the reconciliation is idempotent — on a not-yet-finalized handler
with an empty cache, the first call fills the cache with exactly the set
difference (referenced minus observed, membership semantics), sorted
ascending and without duplicates, returns its size, and a second call
returns the same state and the same size without recomputation. -/
theorem missing_relations_idempotent (h : RefCheckHandler)
    (hdone : h.m_relations_done = false)
    (hmiss : h.m_missing_relation_ids = []) :
    (∀ x : ℕ, x ∈ (h.missing_relations_in_relations).1.m_missing_relation_ids ↔
      (x ∈ h.m_member_relation_ids ∧ ¬ x ∈ h.m_relation_ids)) ∧
    List.Sorted (· ≤ ·)
      (h.missing_relations_in_relations).1.m_missing_relation_ids ∧
    ((h.missing_relations_in_relations).1.m_missing_relation_ids).Nodup ∧
    ((h.missing_relations_in_relations).2 =
      ((h.missing_relations_in_relations).1.m_missing_relation_ids).length) ∧
    ((h.missing_relations_in_relations).1.missing_relations_in_relations =
      ((h.missing_relations_in_relations).1,
        (h.missing_relations_in_relations).2)) := by
  have hne : ¬ h.m_relations_done = true := by rw [hdone]; exact Bool.false_ne_true
  have hmm : ∀ x : ℕ,
      x ∈ h.m_relation_ids.mergeSort (fun a b => decide (a ≤ b)) ↔
        x ∈ h.m_relation_ids :=
    fun x => (List.mergeSort_perm h.m_relation_ids _).mem_iff
  have hfst : (h.missing_relations_in_relations).1 =
      { h with
        m_relation_ids := h.m_relation_ids.mergeSort (fun a b => decide (a ≤ b))
        m_missing_relation_ids := h.m_missing_relation_ids ++
          ((h.m_member_relation_ids.sort (· ≤ ·)).filter
            (fun x => decide (¬ x ∈
              h.m_relation_ids.mergeSort (fun a b => decide (a ≤ b)))))
        m_relations_done := true } := by
    unfold RefCheckHandler.missing_relations_in_relations
    rw [if_neg hne]
  have hsnd : (h.missing_relations_in_relations).2 =
      ((h.missing_relations_in_relations).1.m_missing_relation_ids).length := by
    unfold RefCheckHandler.missing_relations_in_relations
    rw [if_neg hne]
  refine ⟨?_, ?_, ?_, hsnd, ?_⟩
  · intro x
    rw [hfst]
    show x ∈ h.m_missing_relation_ids ++ _ ↔ _
    rw [hmiss, List.nil_append, List.mem_filter]
    simp [Finset.mem_sort, hmm]
  · rw [hfst]
    show List.Sorted (· ≤ ·) (h.m_missing_relation_ids ++ _)
    rw [hmiss, List.nil_append]
    exact (Finset.sort_sorted (· ≤ ·) h.m_member_relation_ids).filter _
  · rw [hfst]
    show (h.m_missing_relation_ids ++ _).Nodup
    rw [hmiss, List.nil_append]
    exact (Finset.sort_nodup (· ≤ ·) h.m_member_relation_ids).filter _
  · have hcached : ∀ g : RefCheckHandler, g.m_relations_done = true →
        g.missing_relations_in_relations = (g, g.m_missing_relation_ids.length) := by
      intro g hg
      unfold RefCheckHandler.missing_relations_in_relations
      rw [if_pos hg]
    rw [hcached _ (mrr_done h)]
    exact Prod.ext rfl hsnd.symm

/-- Witness for C4 at a concrete handler: observed relation ids `[3, 3, 1]`
(unsorted, with a duplicate), referenced relation ids `{2, 3}`. -/
theorem missing_relations_idempotent_witness :
    (∀ x : ℕ, x ∈ (({ m_relation_ids := [3, 3, 1], m_member_relation_ids := {2, 3} } :
        RefCheckHandler).missing_relations_in_relations).1.m_missing_relation_ids ↔
      (x ∈ ({2, 3} : Finset ℕ) ∧ ¬ x ∈ [3, 3, 1])) ∧
    List.Sorted (· ≤ ·)
      (({ m_relation_ids := [3, 3, 1], m_member_relation_ids := {2, 3} } :
        RefCheckHandler).missing_relations_in_relations).1.m_missing_relation_ids ∧
    ((({ m_relation_ids := [3, 3, 1], m_member_relation_ids := {2, 3} } :
        RefCheckHandler).missing_relations_in_relations).1.m_missing_relation_ids).Nodup ∧
    ((({ m_relation_ids := [3, 3, 1], m_member_relation_ids := {2, 3} } :
        RefCheckHandler).missing_relations_in_relations).2 =
      ((({ m_relation_ids := [3, 3, 1], m_member_relation_ids := {2, 3} } :
        RefCheckHandler).missing_relations_in_relations).1.m_missing_relation_ids).length) ∧
    ((({ m_relation_ids := [3, 3, 1], m_member_relation_ids := {2, 3} } :
        RefCheckHandler).missing_relations_in_relations).1.missing_relations_in_relations =
      ((({ m_relation_ids := [3, 3, 1], m_member_relation_ids := {2, 3} } :
        RefCheckHandler).missing_relations_in_relations).1,
        (({ m_relation_ids := [3, 3, 1], m_member_relation_ids := {2, 3} } :
        RefCheckHandler).missing_relations_in_relations).2)) :=
  missing_relations_idempotent
    { m_relation_ids := [3, 3, 1], m_member_relation_ids := {2, 3} } rfl rfl

/-- `any_errors()` returns true exactly when one of the four missing
counters is nonzero (the fourth being the size of the reconciliation
result). -/
theorem any_errors_iff_counters (h : RefCheckHandler) :
    ((h.any_errors).2 = true ↔
      (0 < h.m_missing_nodes_in_ways ∨ 0 < h.m_missing_nodes_in_relations ∨
       0 < h.m_missing_ways_in_relations ∨
       0 < (h.missing_relations_in_relations).2)) := by
  unfold RefCheckHandler.any_errors
  by_cases hc : h.m_missing_nodes_in_ways > 0 ∨ h.m_missing_nodes_in_relations > 0 ∨
      h.m_missing_ways_in_relations > 0
  · rw [if_pos hc]
    constructor
    · intro _
      rcases hc with h1 | h1 | h1
      · exact Or.inl h1
      · exact Or.inr (Or.inl h1)
      · exact Or.inr (Or.inr (Or.inl h1))
    · intro _; rfl
  · rw [if_neg hc]
    simp only [decide_eq_true_eq]
    constructor
    · intro h4
      exact Or.inr (Or.inr (Or.inr h4))
    · intro hor
      rcases hor with h1 | h1 | h1 | h1
      · exact absurd (Or.inl h1) hc
      · exact absurd (Or.inr (Or.inl h1)) hc
      · exact absurd (Or.inr (Or.inr h1)) hc
      · exact h1

/-- C5 (amended): `has_any_error()` is true iff one of the four missing
counters is nonzero; it triggers the reconciliation only when the first
three counters are all zero (short-circuit `||`); and `run()` reports
success exactly when no counter of the final handler state is nonzero. -/
theorem has_any_error_contract (h : RefCheckHandler) (sids cr : Bool)
    (es : List Entity) :
    ((h.any_errors).2 = true ↔
      (0 < h.m_missing_nodes_in_ways ∨ 0 < h.m_missing_nodes_in_relations ∨
       0 < h.m_missing_ways_in_relations ∨
       0 < (h.missing_relations_in_relations).2)) ∧
    (h.m_missing_nodes_in_ways = 0 → h.m_missing_nodes_in_relations = 0 →
      h.m_missing_ways_in_relations = 0 →
      ((h.any_errors).1.m_relations_done = true)) ∧
    (CommandCheckRefs.run sids cr es = true ↔
      ¬(0 < (finalHandler sids cr es).m_missing_nodes_in_ways ∨
        0 < (finalHandler sids cr es).m_missing_nodes_in_relations ∨
        0 < (finalHandler sids cr es).m_missing_ways_in_relations ∨
        0 < ((finalHandler sids cr es).missing_relations_in_relations).2)) := by
  refine ⟨any_errors_iff_counters h, ?_, ?_⟩
  · intro z1 z2 z3
    have hcond : ¬(h.m_missing_nodes_in_ways > 0 ∨ h.m_missing_nodes_in_relations > 0 ∨
        h.m_missing_ways_in_relations > 0) := by
      rw [z1, z2, z3]; simp
    show ((RefCheckHandler.any_errors h).1.m_relations_done = true)
    unfold RefCheckHandler.any_errors
    rw [if_neg hcond]
    exact mrr_done h
  · have hiff := any_errors_iff_counters (finalHandler sids cr es)
    rw [run_eq]
    constructor
    · intro hrun hcontra
      have ht : ((finalHandler sids cr es).any_errors).2 = true := hiff.mpr hcontra
      rw [ht] at hrun
      simp at hrun
    · intro hnot
      have hf : ((finalHandler sids cr es).any_errors).2 = false := by
        cases hb : ((finalHandler sids cr es).any_errors).2
        · rfl
        · exact absurd (hiff.mp hb) hnot
      rw [hf]
      rfl

/-- Witness for C5 at a concrete state: a fresh handler (all counters
zero) and an empty run. -/
theorem has_any_error_contract_witness :
    (((RefCheckHandler.init false false).any_errors).2 = true ↔
      (0 < (RefCheckHandler.init false false).m_missing_nodes_in_ways ∨
       0 < (RefCheckHandler.init false false).m_missing_nodes_in_relations ∨
       0 < (RefCheckHandler.init false false).m_missing_ways_in_relations ∨
       0 < ((RefCheckHandler.init
         false false).missing_relations_in_relations).2)) ∧
    (((RefCheckHandler.init false false).any_errors).1.m_relations_done = true) ∧
    (CommandCheckRefs.run false false [] = true ↔
      ¬(0 < (finalHandler false false []).m_missing_nodes_in_ways ∨
        0 < (finalHandler false false []).m_missing_nodes_in_relations ∨
        0 < (finalHandler false false []).m_missing_ways_in_relations ∨
        0 < ((finalHandler false false []).missing_relations_in_relations).2)) := by
  obtain ⟨c1, c2, c3⟩ := has_any_error_contract (RefCheckHandler.init false false)
    false false []
  exact ⟨c1, c2 rfl rfl rfl, c3⟩

/-- C5 counterexample: after a stream whose only object is way 10
referencing the absent node 3, `any_errors()` returns true by the first
counter and — because `||` short-circuits — does **not** trigger the
reconciliation: the handler stays unfinalized even though finalization had
not run, contradicting the claim that `has_any_error()` always triggers
`finalize()` when it has not run. -/
theorem has_any_error_no_finalize_counterexample :
    ((processStream false false [Entity.way 10 [3]]).m_relations_done = false) ∧
    (((processStream false false [Entity.way 10 [3]]).any_errors).2 = true) ∧
    (((processStream false false
      [Entity.way 10 [3]]).any_errors).1.m_relations_done = false) := by
  refine ⟨rfl, rfl, rfl⟩

/-- C6: over non-negative ids (the id domain of OSM objects), a presence
set built by any sequence of `mark` calls answers `contains` with true for
exactly the marked ids, independently of the call order, and answers
false — rather than erroring — for any id indexing beyond the current
capacity of the backing vector. -/
theorem presence_set_mark_contains (l : List Int) (y : Int)
    (hl : ∀ x ∈ l, 0 ≤ x) (hy : 0 ≤ y) :
    ((bitsvec.setAll ⟨[]⟩ l).get y = true ↔ y ∈ l) ∧
    (∀ l' : List Int, l.Perm l' →
      (bitsvec.setAll ⟨[]⟩ l').get y = (bitsvec.setAll ⟨[]⟩ l).get y) ∧
    (∀ (b : bitsvec) (z : Int), b.m_bits.length ≤ z.natAbs →
      b.get z = false) := by
  have hchar : ∀ (l₀ : List Int), (∀ x ∈ l₀, 0 ≤ x) →
      ((bitsvec.setAll ⟨[]⟩ l₀).get y = true ↔ y ∈ l₀) := by
    intro l₀ hl₀
    rw [bitsvec.get_setAll, bitsvec.get_empty, Bool.or_false, List.any_eq_true]
    constructor
    · rintro ⟨x, hx, hxy⟩
      have hxy' : x.natAbs = y.natAbs := by simpa using hxy
      have hx_eq : x = y :=
        (Int.natAbs_inj_of_nonneg_of_nonneg (hl₀ x hx) hy).mp hxy'
      rwa [hx_eq] at hx
    · intro hmem
      exact ⟨y, hmem, by simp⟩
  refine ⟨hchar l hl, ?_, ?_⟩
  · intro l' hperm
    have h1 := hchar l hl
    have h2 := hchar l' (fun x hx => hl x (hperm.mem_iff.mpr hx))
    have e1 : ((bitsvec.setAll ⟨[]⟩ l').get y = true) ↔
        ((bitsvec.setAll ⟨[]⟩ l).get y = true) := by
      rw [h1, h2]
      exact hperm.mem_iff.symm
    cases hb1 : (bitsvec.setAll ⟨[]⟩ l').get y <;>
      cases hb2 : (bitsvec.setAll ⟨[]⟩ l).get y <;> simp_all
  · intro b z hz
    unfold bitsvec.get
    simp only
    rw [decide_eq_false (by omega : ¬ z.natAbs < b.m_bits.length)]
    rfl

/-- Witness for C6: after marking 2 and 7, id 7 is contained. -/
theorem presence_set_mark_contains_witness :
    (bitsvec.setAll ⟨[]⟩ [2, 7]).get 7 = true :=
  (presence_set_mark_contains [2, 7] 7 (by decide) (by decide)).1.mpr (by decide)

/-- C8: presence-set invariants — (1) monotonicity: a bit once set stays
set under any further marks and under any further handler callbacks for
both presence sets; (2) capacity: after `set id` the backing vector can
index `|id|`, growth happens only when the index does not fit and then
jumps to `|id| + 1024*1024` in one chunked reallocation, otherwise the
capacity is untouched. -/
theorem presence_set_invariants (b : bitsvec) (l : List Int) (x y : Int)
    (es : List Entity) (h : RefCheckHandler)
    (hb : b.get y = true) (hn : h.m_nodes.get y = true)
    (hw : h.m_ways.get y = true) :
    ((bitsvec.setAll b l).get y = true) ∧
    ((es.foldl RefCheckHandler.step h).m_nodes.get y = true) ∧
    ((es.foldl RefCheckHandler.step h).m_ways.get y = true) ∧
    ((b.set x).m_bits.length =
      if b.m_bits.length ≤ x.natAbs then x.natAbs + chunkBits
      else b.m_bits.length) ∧
    (x.natAbs + 1 ≤ (b.set x).m_bits.length) := by
  refine ⟨?_, stream_nodes_mono es h y hn, stream_ways_mono es h y hw,
    bitsvec.length_set b x, ?_⟩
  · rw [bitsvec.get_setAll]
    simp [hb]
  · have := bitsvec.lt_length_set b x
    omega

/-- Witness for C8 at concrete data: bit 3 survives marking 9 and a
further streamed node, and the empty vector grows to `3 + 1024*1024`
bits when bit 3 is set. -/
theorem presence_set_invariants_witness :
    ((bitsvec.setAll ((⟨[]⟩ : bitsvec).set 3) [9]).get 3 = true) ∧
    ((([Entity.node 9].foldl RefCheckHandler.step
      (((RefCheckHandler.init false true).node 3).way 3 []))).m_nodes.get 3 = true) ∧
    ((([Entity.node 9].foldl RefCheckHandler.step
      (((RefCheckHandler.init false true).node 3).way 3 []))).m_ways.get 3 = true) ∧
    ((((⟨[]⟩ : bitsvec).set 3).set 2).m_bits.length =
      if ((⟨[]⟩ : bitsvec).set 3).m_bits.length ≤ (2 : Int).natAbs
      then (2 : Int).natAbs + chunkBits
      else ((⟨[]⟩ : bitsvec).set 3).m_bits.length) ∧
    ((2 : Int).natAbs + 1 ≤ (((⟨[]⟩ : bitsvec).set 3).set 2).m_bits.length) :=
  presence_set_invariants ((⟨[]⟩ : bitsvec).set 3) [9] 2 3 [Entity.node 9]
    (((RefCheckHandler.init false true).node 3).way 3 [])
    (by rw [bitsvec.get_set]; simp)
    (by show ((⟨[]⟩ : bitsvec).set 3).get 3 = true
        rw [bitsvec.get_set]; simp)
    (by show ((⟨[]⟩ : bitsvec).set 3).get 3 = true
        rw [bitsvec.get_set]; simp)

/-- C10: relation ids entering the Relation Ledger are truncated to 32
bits — two relation ids congruent modulo `2^32` produce the identical
handler state (identical observed vector, identical referenced set, and
hence identical reconciliation), and with checking enabled the observed
vector records exactly the truncated id; the node/way presence sets, in
contrast, work on the full id domain: setting an id never affects any id
with a different absolute value, even one congruent modulo `2^32`. -/
theorem relation_ledger_uint32 (h : RefCheckHandler) (id id' : Int)
    (members : List Member) (b : bitsvec) (x y : Int)
    (hid : id % (2 ^ 32 : Int) = id' % (2 ^ 32 : Int))
    (hxy : x % (2 ^ 32 : Int) = y % (2 ^ 32 : Int))
    (hne : x.natAbs ≠ y.natAbs) :
    h.relation id members = h.relation id' members ∧
    (h.m_check_relations = true →
      (h.relation id members).m_relation_ids =
        h.m_relation_ids ++ [uint32_of id]) ∧
    ((b.set x).get y = b.get y) := by
  have hu : uint32_of id = uint32_of id' := by
    unfold uint32_of
    rw [hid]
  have hpm : RefCheckHandler.processMember id = RefCheckHandler.processMember id' := by
    funext acc m
    rcases m with ⟨t, ref⟩
    cases t <;> simp [RefCheckHandler.processMember, hu]
  refine ⟨?_, ?_, ?_⟩
  · unfold RefCheckHandler.relation
    rw [hu, hpm]
  · intro hc
    rw [RefCheckHandler.relation_eq_of_check h id members hc]
    exact (members_foldl_frame id members _).1
  · rw [bitsvec.get_set]
    simp [hne]

/-- Witness for C10: relation ids `1` and `2^32 + 1` collide in the
ledger, while node/way presence keeps them apart. -/
theorem relation_ledger_uint32_witness :
    (RefCheckHandler.init false true).relation 1 [⟨item_type.relation, 4⟩] =
      (RefCheckHandler.init false true).relation (2 ^ 32 + 1)
        [⟨item_type.relation, 4⟩] ∧
    ((RefCheckHandler.init false true).m_check_relations = true →
      ((RefCheckHandler.init false true).relation 1
        [⟨item_type.relation, 4⟩]).m_relation_ids =
        (RefCheckHandler.init false true).m_relation_ids ++ [uint32_of 1]) ∧
    (((⟨[]⟩ : bitsvec).set 1).get (2 ^ 32 + 1) =
      (⟨[]⟩ : bitsvec).get (2 ^ 32 + 1)) :=
  relation_ledger_uint32 (RefCheckHandler.init false true) 1 (2 ^ 32 + 1)
    [⟨item_type.relation, 4⟩] ⟨[]⟩ 1 (2 ^ 32 + 1)
    (by decide) (by decide) (by decide)
